import Mathlib

/-!
Verification of the `tiny` declarative web-component library against its
specification.  The development shallowly embeds the rendering pipeline:
the mustache-style template renderer (`src/core/template-renderer.ts`),
the expression evaluator boundary (`src/core/context-evaluator.ts`), the
directive processor (`src/core/attribute-processor.js`) and the dataset
coercion utilities (`src/dataset-parser.ts`).  JavaScript strings are
modelled as `List Char`, JavaScript runtime values by the inductive
`Value` below (numbers as integers; floats play no role in the verified
claims), and the unbounded recursion of `TemplateRenderer.render` by an
explicit fuel parameter.
-/

namespace Tiny

/-- JavaScript runtime values as used by the renderer.  `elem` stands for an
opaque reference to a DOM element (its properties are not modelled).
Integral numbers are `num`; a non-integral number is `numD m e`, the
exact decimal `m * 10 ^ (-e)` in canonical form (`e ≥ 1`, `m` not
divisible by 10) as produced by parsing JSON fraction/exponent forms —
IEEE-754 rounding and the exponential display thresholds of huge/tiny
doubles are not modelled. -/
inductive Value where
  | undef
  | null
  | bool (b : Bool)
  | num (n : Int)
  | numD (m : Int) (e : Nat)
  | str (s : String)
  | arr (elems : List Value)
  | obj (fields : List (String × Value))
  | elem (id : Nat)

/-- A rendering context: a JavaScript object modelled as an association
list in which the FIRST binding of a key wins (so `{...a, k: v}` is
modelled by consing `(k, v)` in front of `a`). -/
abbrev Ctx := List (String × Value)

/-- Property lookup on a JS object: first binding wins, a missing key
reads as `undefined`. -/
def ctxGet (fields : List (String × Value)) (k : String) : Value :=
  match fields.find? (fun p => p.1 == k) with
  | some p => p.2
  | none => Value.undef

/-- JS property assignment `obj[k] = v` on an object modelled as an
association list: replace the visible binding or append a fresh one. -/
def setAssoc {α : Type} : List (String × α) → String → α → List (String × α)
  | [], k, v => [(k, v)]
  | (k', v') :: rest, k, v =>
    if k' == k then (k, v) :: rest else (k', v') :: setAssoc rest k v

/-- JS truthiness (`Boolean(v)`).  `NaN` is not representable in the
integer number model. -/
def truthy : Value → Bool
  | .undef => false
  | .null => false
  | .bool b => b
  | .num n => n != 0
  | .numD m _ => m != 0
  | .str s => s != ""
  | .arr _ => true
  | .obj _ => true
  | .elem _ => true

/-- The nullish-coalescing operator `a ?? b`. -/
def jsCoalesce (a b : Value) : Value :=
  match a with
  | .undef => b
  | .null => b
  | _ => a

/-- Decimal rendering of the exact non-integral number `m * 10 ^ (-e)`
(`e ≥ 1` in canonical values), as `String(1.5) = "1.5"` or
`String(0.05) = "0.05"`. -/
def decRender (m : Int) (e : Nat) : String :=
  let ds := toString m.natAbs
  let sign := if m < 0 then "-" else ""
  if e == 0 then sign ++ ds
  else if ds.data.length > e then
    sign ++ String.mk (ds.data.take (ds.data.length - e)) ++ "." ++
      String.mk (ds.data.drop (ds.data.length - e))
  else sign ++ "0." ++ String.mk (List.replicate (e - ds.data.length) '0') ++ ds

mutual

/-- JS `String(v)` coercion.  Arrays stringify as their elements joined by
commas with `null`/`undefined` elements contributing the empty string;
plain objects give the usual `[object Object]` tag. -/
def jsToString : Value → String
  | .undef => "undefined"
  | .null => "null"
  | .bool b => if b then "true" else "false"
  | .num n => toString n
  | .numD m e => decRender m e
  | .str s => s
  | .arr l => jsJoinComma l
  | .obj _ => "[object Object]"
  | .elem _ => "[object HTMLElement]"

/-- `Array.prototype.toString`: comma-join, `null`/`undefined` as empty. -/
def jsJoinComma : List Value → String
  | [] => ""
  | v :: rest =>
    (match v with
     | Value.undef => ""
     | Value.null => ""
     | w => jsToString w) ++
    (match rest with
     | [] => ""
     | _ => "," ++ jsJoinComma rest)

end

/-- Hexadecimal digit for JSON control-character escapes. -/
def hexDigit (n : Nat) : Char :=
  if n < 10 then Char.ofNat (48 + n) else Char.ofNat (87 + n)

/-- JSON escaping of a single character inside a string literal. -/
def jsonEscChar (c : Char) : List Char :=
  if c == '\x22' then ['\\', '\x22']
  else if c == '\\' then ['\\', '\\']
  else if c == '\n' then ['\\', 'n']
  else if c == '\r' then ['\\', 'r']
  else if c == '\t' then ['\\', 't']
  else if c == '\x08' then ['\\', 'b']
  else if c == '\x0c' then ['\\', 'f']
  else if c.toNat < 32 then
    ['\\', 'u', '0', '0', hexDigit (c.toNat / 16), hexDigit (c.toNat % 16)]
  else [c]

/-- JSON escaping of a character list. -/
def jsonEscList : List Char → List Char
  | [] => []
  | c :: rest => jsonEscChar c ++ jsonEscList rest

/-- A JSON string literal with surrounding quotes. -/
def jsonQuote (s : String) : String :=
  "\x22" ++ String.mk (jsonEscList s.data) ++ "\x22"

/-- Comma-join a list of already serialised fragments. -/
def commaJoin : List String → String
  | [] => ""
  | [s] => s
  | s :: rest => s ++ "," ++ commaJoin rest

mutual

/-- `JSON.stringify` on the value model.  `undefined` appears only inside
arrays in reachable uses, where JSON maps it to `null`; object fields
holding `undefined` are omitted; a bare DOM element serialises as an
empty object. -/
def jsonStringify : Value → String
  | .undef => "null"
  | .null => "null"
  | .bool b => if b then "true" else "false"
  | .num n => toString n
  | .numD m e => decRender m e
  | .str s => jsonQuote s
  | .arr l => "[" ++ commaJoin (jsonArrEntries l) ++ "]"
  | .obj f => "\x7b" ++ commaJoin (jsonObjEntries f) ++ "\x7d"
  | .elem _ => "\x7b\x7d"

/-- Array entries for `JSON.stringify`: `undefined` becomes `null`. -/
def jsonArrEntries : List Value → List String
  | [] => []
  | v :: rest =>
    (match v with
     | Value.undef => "null"
     | w => jsonStringify w) :: jsonArrEntries rest

/-- Object entries for `JSON.stringify`: `undefined` fields are omitted. -/
def jsonObjEntries : List (String × Value) → List String
  | [] => []
  | (k, v) :: rest =>
    match v with
    | Value.undef => jsonObjEntries rest
    | w => (jsonQuote k ++ ":" ++ jsonStringify w) :: jsonObjEntries rest

end

/-- The character set trimmed by JS `String.prototype.trim` (ASCII part). -/
def isJsSpace (c : Char) : Bool :=
  c == ' ' || c == '\t' || c == '\n' || c == '\r' || c == '\x0b' || c == '\x0c'

/-- JS `String.prototype.trim` on character lists. -/
def jsTrim (s : List Char) : List Char :=
  ((s.dropWhile isJsSpace).reverse.dropWhile isJsSpace).reverse

/-- JS `"a.b.c".split(".")` on character lists: split on every dot,
producing at least one (possibly empty) segment. -/
def splitOnDotChars : List Char → List (List Char)
  | [] => [[]]
  | c :: rest =>
    match splitOnDotChars rest with
    | [] => [[]]
    | g :: gs => if c == '.' then [] :: g :: gs else (c :: g) :: gs

/-- Canonical decoding of an array index key: `arr["2"]` hits element 2,
while non-canonical keys such as `"02"` miss. -/
def decodeIndex (s : String) : Option Nat :=
  match s.toNat? with
  | some n => if toString n == s then some n else none
  | none => none

/-- JS property read `acc[part]` for the dotted-path resolver: objects
look up fields, arrays expose `length` and canonical indices; other
properties (methods and element internals) are not modelled and read as
`undefined`. -/
def valueGet (v : Value) (part : String) : Value :=
  match v with
  | .obj fields => ctxGet fields part
  | .arr l =>
    if part == "length" then .num l.length
    else
      match decodeIndex part with
      | some i => l.getD i Value.undef
      | none => Value.undef
  | _ => Value.undef

/-! ### Regex scanning machinery

The renderer's three passes are JS global regex replaces.  They are
modelled by explicit leftmost scanners with the lazy (shortest-first)
matching and backtracking behaviour of the patterns involved:
`/\x7b\x7b\^(.*?)\x7d\x7d([\s\S]*?)\x7b\x7b\/\1\x7d\x7d/g` for inverted
sections, the same with `#` for sections, and
`/\x7b\x7b\x7b(.*?)\x7d\x7d\x7d|\x7b\x7b(.*?)\x7d\x7d/g` for
interpolation.  `.` does not match a newline, `[\s\S]` matches
everything. -/

/-- `startsWith pat s`: `pat` is a prefix of `s`. -/
def startsWith : List Char → List Char → Bool
  | [], _ => true
  | _ :: _, [] => false
  | p :: ps, c :: cs => p == c && startsWith ps cs

/-- Lazy scan for the earliest occurrence of `pat`, splitting `s` as
`pre ++ pat ++ post` and returning `(pre, post)`.  When `noNL` is true
the consumed prefix may not contain a newline (each skipped character
must match the regex `.`). -/
def splitAtSub (pat : List Char) (noNL : Bool) : List Char → Option (List Char × List Char)
  | [] => if startsWith pat [] then some ([], []) else none
  | c :: cs =>
    if startsWith pat (c :: cs) then some ([], (c :: cs).drop pat.length)
    else if noNL && c == '\n' then none
    else
      match splitAtSub pat noNL cs with
      | some (pre, post) => some (c :: pre, post)
      | none => none

/-- All candidate splits of `s` as `key ++ "\x7d\x7d" ++ after` produced by
the lazy group `(.*?)\x7d\x7d` in increasing key length: the key may not
contain a newline but may contain any other character (including `\x7d`
on backtracking). -/
def keySplits : List Char → List (List Char × List Char)
  | [] => []
  | c :: cs =>
    let here :=
      if startsWith ['\x7d', '\x7d'] (c :: cs) then [(([] : List Char), cs.drop 1)] else []
    let tail :=
      if c == '\n' then [] else (keySplits cs).map (fun p => (c :: p.1, p.2))
    here ++ tail

/-- The literal closing tag `\x7b\x7b/key\x7d\x7d` matched via the
backreference `\1`. -/
def closerTag (key : List Char) : List Char :=
  '\x7b' :: '\x7b' :: '/' :: key ++ ['\x7d', '\x7d']

/-- Regex body of a section match starting right after `\x7b\x7b#` (or
`\x7b\x7b^`): try each lazy key candidate in order and, for each, the
earliest closing tag in the remainder (`[\s\S]*?` content); the first
candidate admitting a closing tag wins.  Returns the key, the block
content, and the rest of the input after the match. -/
def matchTag (s : List Char) : Option (List Char × List Char × List Char) :=
  (keySplits s).findSome? fun p =>
    match splitAtSub (closerTag p.1) false p.2 with
    | some (content, rest) => some (p.1, content, rest)
    | none => none

/-- One global-replace scan for section-like patterns: at each position,
if the input starts with `\x7b\x7b` followed by `marker` and the regex
body matches, splice in `body key content` and continue after the match;
otherwise advance one character.  The fuel is one more than the input
length, which every step consumes. -/
def sectionPassAux (marker : Char) (body : List Char → List Char → List Char) :
    Nat → List Char → List Char
  | _, [] => []
  | 0, s => s
  | fuel + 1, c :: cs =>
    if c == '\x7b' && startsWith ['\x7b', marker] cs then
      match matchTag (cs.drop 2) with
      | some (key, content, rest) => body key content ++ sectionPassAux marker body fuel rest
      | none => c :: sectionPassAux marker body fuel cs
    else c :: sectionPassAux marker body fuel cs

/-- Global replace of `\x7b\x7b<marker>(.*?)\x7d\x7d([\s\S]*?)\x7b\x7b/\1\x7d\x7d`. -/
def sectionPass (marker : Char) (body : List Char → List Char → List Char)
    (s : List Char) : List Char :=
  sectionPassAux marker body (s.length + 1) s

namespace TemplateRenderer

/-- One step of the dotted-path reduce: `undefined`/`null` short-circuit
to `undefined`, objects (`typeof acc == "object"`) read the property,
other primitives give `undefined`. -/
def resolveStep (acc : Value) (part : String) : Value :=
  match acc with
  | Value.undef => Value.undef
  | Value.null => Value.undef
  | Value.obj _ => valueGet acc part
  | Value.arr _ => valueGet acc part
  | Value.elem _ => valueGet acc part
  | _ => Value.undef

/-- `TemplateRenderer.resolveValue`: dotted-path lookup in the context.
`"."` reads the reserved current-item binding; otherwise the key is
split on dots and folded over JS property reads. -/
def resolveValue (context : Ctx) (key : List Char) : Value :=
  if key == ['.'] then ctxGet context "."
  else
    (splitOnDotChars key).foldl (fun acc part => resolveStep acc (String.mk part))
      (Value.obj context)

/-- `TemplateRenderer.stringifyValue`: `undefined`/`null` give the empty
string, objects are JSON-serialised, primitives use `String(v)`.  (The
`JSON.stringify` try/catch fallback is unreachable: the value model has
no circular structures.) -/
def stringifyValue (v : Value) : String :=
  match v with
  | .undef => ""
  | .null => ""
  | .obj _ => jsonStringify v
  | .arr _ => jsonStringify v
  | .elem _ => jsonStringify v
  | _ => jsToString v

/-- Replace every occurrence of the character `c` by the string `r`
(one JS `String.prototype.replace` pass with a `/c/g` regex). -/
def replaceAllChar (c : Char) (r : List Char) : List Char → List Char
  | [] => []
  | d :: rest => (if d == c then r else [d]) ++ replaceAllChar c r rest

/-- `TemplateRenderer.escapeHTML`: `null`/`undefined` (the JS `== null`
test) give the empty string; otherwise `String(v)` runs through the five
sequential entity replacements in source order. -/
def escapeHTML (v : Value) : String :=
  match v with
  | .undef => ""
  | .null => ""
  | _ =>
    String.mk
      (replaceAllChar '\x27' "&#039;".data
        (replaceAllChar '\x22' "&quot;".data
          (replaceAllChar '>' "&gt;".data
            (replaceAllChar '<' "&lt;".data
              (replaceAllChar '&' "&amp;".data (jsToString v).data)))))

/-- Replacement for an escaped interpolation `\x7b\x7bkey\x7d\x7d`:
`escapeHTML(resolveValue(context, key.trim()) ?? "")`. -/
def escBody (context : Ctx) (key : List Char) : List Char :=
  (escapeHTML (jsCoalesce (resolveValue context (jsTrim key)) (Value.str ""))).data

/-- Replacement for a raw interpolation `\x7b\x7b\x7bkey\x7d\x7d\x7d`:
`stringifyValue(resolveValue(context, key.trim()))`. -/
def rawBody (context : Ctx) (key : List Char) : List Char :=
  (stringifyValue (resolveValue context (jsTrim key))).data

/-- One global-replace scan for the interpolation regex
`\x7b\x7b\x7b(.*?)\x7d\x7d\x7d|\x7b\x7b(.*?)\x7d\x7d`: at each position the
triple-brace alternative is tried first, then the double-brace one,
otherwise the scan advances one character.  A triple match with an empty
group falls through JS's `(unescaped || escaped || "")` to the escaped
branch. -/
def interpPassAux (context : Ctx) : Nat → List Char → List Char
  | _, [] => []
  | 0, s => s
  | fuel + 1, '\x7b' :: '\x7b' :: '\x7b' :: rest =>
    match splitAtSub ['\x7d', '\x7d', '\x7d'] true rest with
    | some (key, r) =>
      (if key == ([] : List Char) then escBody context key else rawBody context key) ++
        interpPassAux context fuel r
    | none =>
      match splitAtSub ['\x7d', '\x7d'] true ('\x7b' :: rest) with
      | some (key, r) => escBody context key ++ interpPassAux context fuel r
      | none => '\x7b' :: interpPassAux context fuel ('\x7b' :: '\x7b' :: rest)
  | fuel + 1, '\x7b' :: '\x7b' :: rest =>
    match splitAtSub ['\x7d', '\x7d'] true rest with
    | some (key, r) => escBody context key ++ interpPassAux context fuel r
    | none => '\x7b' :: interpPassAux context fuel ('\x7b' :: rest)
  | fuel + 1, c :: rest => c :: interpPassAux context fuel rest

/-- Global replace for the interpolation pass. -/
def interpPass (context : Ctx) (s : List Char) : List Char :=
  interpPassAux context (s.length + 1) s

/-- Spread of a value into an object literal (`{...item}`): objects
contribute their fields, arrays and strings their indexed elements,
primitives nothing. -/
def spreadFields : Value → List (String × Value)
  | .obj f => f
  | .arr l => (List.range l.length).map fun i => (toString i, l.getD i Value.undef)
  | .str s => (List.range s.length).map fun i =>
      (toString i, Value.str (String.mk [s.data.getD i ' ']))
  | _ => []

/-- The per-element overlay `{...context, ...item, ".": item}` used when a
section iterates over an array. -/
def sectionOverlay (context : Ctx) (item : Value) : Ctx :=
  (".", item) :: spreadFields item ++ context

/-- Replacement body of `renderSections`: arrays render the block once
per element under `sectionOverlay`, truthy non-arrays once with the
value bound to `"."`, anything else gives the empty string.  `rcb` is
the recursive `render` call. -/
def secBody (rcb : List Char → Ctx → List Char) (context : Ctx)
    (key content : List Char) : List Char :=
  match resolveValue context (jsTrim key) with
  | Value.arr items => (items.map fun item => rcb content (sectionOverlay context item)).flatten
  | v => if truthy v then rcb content ((".", v) :: context) else []

/-- `Array.isArray(v) && v.length === 0`. -/
def isEmptyArr : Value → Bool
  | .arr [] => true
  | _ => false

/-- Replacement body of `renderInvertedSections`: the block renders (with
the same context) when the key's value is falsy or an empty array. -/
def invBody (rcb : List Char → Ctx → List Char) (context : Ctx)
    (key content : List Char) : List Char :=
  let v := resolveValue context (jsTrim key)
  if !truthy v || isEmptyArr v then rcb content context else []

/-- `TemplateRenderer.render` on character lists: inverted sections, then
sections, then interpolation.  The fuel bounds the recursion depth of
the nested `render` calls made by the section bodies (the JS original
recurses unboundedly); with fuel 0 the template is returned untouched. -/
def renderF : Nat → List Char → Ctx → List Char
  | 0, template, _ => template
  | fuel + 1, template, context =>
    interpPass context
      (sectionPass '#' (secBody (fun t c => renderF fuel t c) context)
        (sectionPass '^' (invBody (fun t c => renderF fuel t c) context) template))

/-- `TemplateRenderer.render` on strings. -/
def render (fuel : Nat) (template : String) (context : Ctx) : String :=
  String.mk (renderF fuel template.data context)

/-- `TemplateRenderer.renderSections` (the `\x7b\x7b#…\x7d\x7d` pass). -/
def renderSections (fuel : Nat) (template : List Char) (context : Ctx) : List Char :=
  sectionPass '#' (secBody (fun t c => renderF fuel t c) context) template

/-- `TemplateRenderer.renderInvertedSections` (the `\x7b\x7b^…\x7d\x7d` pass). -/
def renderInvertedSections (fuel : Nat) (template : List Char) (context : Ctx) : List Char :=
  sectionPass '^' (invBody (fun t c => renderF fuel t c) context) template

/-- `TemplateRenderer.renderInterpolation`. -/
def renderInterpolation (template : List Char) (context : Ctx) : List Char :=
  interpPass context template

end TemplateRenderer

/-! ### Expression evaluator (`src/core/context-evaluator.ts`)

The evaluator runs arbitrary JavaScript through `new Function("context",
"with (context) { return <expr>; }")`.  The embedding restricts the
expression language to the constructs the verified claims exercise:
literals, identifiers resolved against the `with` scope, member access,
and a marker for syntactically malformed sources (whose `Function`
construction throws inside the same `try`). -/

/-- Shallowly embedded expressions. -/
inductive Expr where
  | lit (v : Value)
  | ident (name : String)
  | member (e : Expr) (field : String)
  | bad (msg : String)

/-- Whether a scope has an own binding for a name (the `with` statement
consults the object's properties). -/
def scopeBinds (scope : Ctx) (k : String) : Bool :=
  (scope.find? (fun p => p.1 == k)).isSome

/-- Raw expression evaluation inside `with (context) { return … }`: an
identifier missing from the scope throws a `ReferenceError` (no global
fallback is modelled), member access on `null`/`undefined` throws a
`TypeError`, a malformed source throws a `SyntaxError` at `Function`
construction; all three happen inside the caller's `try`. -/
def evalExpr : Expr → Ctx → Except String Value
  | .lit v, _ => .ok v
  | .ident n, scope =>
    if scopeBinds scope n then .ok (ctxGet scope n)
    else .error ("ReferenceError: " ++ n ++ " is not defined")
  | .member e f, scope =>
    match evalExpr e scope with
    | .error msg => .error msg
    | .ok v =>
      match v with
      | .undef => .error "TypeError: cannot read properties of undefined"
      | .null => .error "TypeError: cannot read properties of null"
      | w => .ok (valueGet w f)
  | .bad msg, _ => .error ("SyntaxError: " ++ msg)

/-- A dotted path `h.p1.p2…` as an expression (the form bound by
`x-model`). -/
def dottedExpr (h : String) (rest : List String) : Expr :=
  rest.foldl Expr.member (Expr.ident h)

/-- Statements run by the event-handler form `with (context) { <stmt>; }`.
Assignment to a name bound in the scope updates the scope object;
assignment to an unbound name would create a non-strict global and is
modelled as a no-op on the scope. -/
inductive Stmt where
  | exprS (e : Expr)
  | assignS (name : String) (e : Expr)
  | bad (msg : String)

/-- Raw statement evaluation, returning the possibly mutated scope. -/
def evalStmt : Stmt → Ctx → Except String Ctx
  | .exprS e, scope =>
    match evalExpr e scope with
    | .ok _ => .ok scope
    | .error msg => .error msg
  | .assignS n e, scope =>
    match evalExpr e scope with
    | .ok v => .ok (if scopeBinds scope n then setAssoc scope n v else scope)
    | .error msg => .error msg
  | .bad msg, _ => .error ("SyntaxError: " ++ msg)

namespace ContextEvaluator

/-- The scope `ContextEvaluator.evaluate` evaluates in:
`element ? { ...context, $el: element } : context` — `$el` is added only
when an element is supplied. -/
def fullContextOf (context : Ctx) (element : Option Value) : Ctx :=
  match element with
  | some el => ("$el", el) :: context
  | none => context

/-- `ContextEvaluator.evaluate`: evaluation failures are caught at this
boundary, logged, and turned into `null`; no error propagates. -/
def evaluate (expression : Expr) (context : Ctx) (element : Option Value) : Value :=
  match evalExpr expression (fullContextOf context element) with
  | .ok v => v
  | .error _ => Value.null

/-- The scope of an event handler created by
`ContextEvaluator.createEventHandler`:
`{ ...context, $el: element, $event: event, event }`. -/
def handlerScope (context : Ctx) (element event : Value) : Ctx :=
  ("event", event) :: ("$event", event) :: ("$el", element) :: context

/-- Outcome of one event-handler invocation: the (copied) scope after the
statement ran, whether the component re-render was reached, and whether
the catch branch logged an error. -/
structure HandlerRun where
  scope : Ctx
  rendered : Bool
  logged : Bool

/-- `ContextEvaluator.createEventHandler`: the statement and the
subsequent `this.render()` run inside one `try`; any error is caught and
logged, never propagated to the event loop. -/
def createEventHandler (expression : Stmt) (context : Ctx) (element event : Value) :
    HandlerRun :=
  match evalStmt expression (handlerScope context element event) with
  | .ok scope2 => { scope := scope2, rendered := true, logged := false }
  | .error _ =>
    { scope := handlerScope context element event, rendered := false, logged := true }

end ContextEvaluator

/-! ### Attribute processor (`src/core/attribute-processor.js`) -/

namespace AttributeProcessor

/-- `AttributeProcessor.evaluateExpression`: same evaluator, but the
scope is `{ ...context, $el: element }` with `$el` always bound (the
parameter defaults to `null`). -/
def evaluateExpression (expression : Expr) (context : Ctx) (element : Value) : Value :=
  match evalExpr expression (("$el", element) :: context) with
  | .ok v => v
  | .error _ => Value.null

/-- `AttributeProcessor.updateContext` path walk.  Missing or falsy
intermediate segments are replaced by fresh empty objects; a truthy
non-object intermediate makes the final strict-mode property assignment
throw a `TypeError` (array intermediates, which JS would accept, are not
modelled as property-bearing and take the same error branch). -/
def updateGo : List String → List (String × Value) → Value →
    Except String (List (String × Value))
  | [], fields, _ => .ok fields
  | [p], fields, v => .ok (setAssoc fields p v)
  | p :: rest, fields, v =>
    match ctxGet fields p with
    | Value.obj cf =>
      match updateGo rest cf v with
      | .ok cf2 => .ok (setAssoc fields p (Value.obj cf2))
      | .error msg => .error msg
    | cur =>
      if truthy cur then .error "TypeError: cannot create property"
      else
        match updateGo rest [] v with
        | .ok cf2 => .ok (setAssoc fields p (Value.obj cf2))
        | .error msg => .error msg

/-- `AttributeProcessor.updateContext`: write `value` into the context at
the dotted path `attributeName`, creating intermediate objects for
missing levels. -/
def updateContext (context : Ctx) (value : Value) (attributeName : String) :
    Except String Ctx :=
  updateGo ((splitOnDotChars attributeName.data).map String.mk) context value

/-- `element.setAttribute(name, value)` on the attribute list (DOM
coerces the value to a string before storing). -/
def setAttribute (attrs : List (String × String)) (name value : String) :
    List (String × String) :=
  setAssoc attrs name value

/-- `element.getAttribute(name)`. -/
def getAttr (attrs : List (String × String)) (name : String) : Option String :=
  (attrs.find? (fun p => p.1 == name)).map (fun p => p.2)

/-- `AttributeProcessor.processDynamicAttribute` acting on the element's
attribute list: evaluate the expression; set the attribute to the
stringified result only when the value is truthy. -/
def processDynamicAttribute (attrs : List (String × String)) (attrName : String)
    (expression : Expr) (context : Ctx) (element : Value) : List (String × String) :=
  let value := evaluateExpression expression context element
  if truthy value then setAttribute attrs attrName (jsToString value) else attrs

/-- Iteration contexts built by the function `parseListIterations`
constructs: `collection.map((v, _idx) => ({ ...context, v, _idx }))`,
with the later literal entries shadowing the spread (first binding wins
in the list model). -/
def parseIterGo (iteratorVar : String) (context : Ctx) : Nat → List Value → List Ctx
  | _, [] => []
  | i, item :: rest =>
    (("_idx", Value.num i) :: (iteratorVar, item) :: context) ::
      parseIterGo iteratorVar context (i + 1) rest

/-- `AttributeProcessor.parseListIterations` after the `of|in` split: the
collection expression is evaluated in the `with (context)` scope; a
non-array result makes `.map` throw, and any error is caught, logged and
turned into an empty iteration list. -/
def parseListIterations (iteratorVar : String) (collectionExpr : Expr) (context : Ctx) :
    List Ctx :=
  match evalExpr collectionExpr context with
  | .ok (Value.arr items) => parseIterGo iteratorVar context 0 items
  | .ok _ => []
  | .error _ => []

/-- Nodes of the parent that hosts an `x-for` template: the template
element itself is the `anchor`; all other children are opaque. -/
inductive DomNode where
  | anchor
  | node (id : Nat)
deriving DecidableEq

/-- `parentNode.insertBefore(fragment, element)`: splice the fragment's
nodes in front of the (first occurrence of the) template anchor. -/
def insertBefore (children newNodes : List DomNode) : List DomNode :=
  match children with
  | [] => newNodes
  | DomNode.anchor :: rest => newNodes ++ DomNode.anchor :: rest
  | c :: rest => c :: insertBefore rest newNodes

/-- `AttributeProcessor.processForAttribute` on a repeating template: for
each iteration context, clone the template content, run the recursive
render callback `f` on the clone with that context, and insert the
result before the template anchor. -/
def processForAttribute (f : List DomNode → Ctx → List DomNode)
    (content : List DomNode) (children : List DomNode) (iterations : List Ctx) :
    List DomNode :=
  iterations.foldl (fun ch itCtx => insertBefore ch (f content itCtx)) children

end AttributeProcessor

/-! ### Per-element directive processing
(`ComponentRenderer.processDynamicAttributes`, inner loop)

For one element, `Array.from(element.attributes).forEach(attr =>
AttributeProcessor.processAttribute(element, attr, context, rerender))`
runs over a snapshot of the attribute list; nothing checks whether the
element is still attached between directives. -/

/-- Observable state of one element during a directive pass. -/
structure ElemState where
  tag : String
  self : Value
  attached : Bool
  hidden : Bool
  textContent : String
  innerHTML : String
  value : String
  datasetValue : String
  attrsOut : List (String × String)
  listeners : List String

/-- State threaded through the attribute loop: the element plus the
shared rendering context (mutated by `x-ref`). -/
structure PassState where
  elem : ElemState
  ctx : Ctx

/-- A DOM attribute: its raw source text and the shallow embedding of
evaluating that text as an expression. -/
structure AttrV where
  raw : String
  expr : Expr

/-- Head character test for the `@`/`:` prefix dispatch. -/
def strHead (s : String) (c : Char) : Bool :=
  match s.data with
  | d :: _ => d == c
  | [] => false

/-- `$refs` table update performed by `x-ref`:
`context.$refs = context.$refs || {}; context.$refs[key] = element`
(a truthy non-object `$refs`, which JS would keep, is not modelled and
is replaced like a falsy one). -/
def setRef (context : Ctx) (key : String) (element : Value) : Ctx :=
  let fields :=
    match ctxGet context "$refs" with
    | Value.obj f => f
    | _ => []
  setAssoc context "$refs" (Value.obj (setAssoc fields key element))

/-- `AttributeProcessor.processAttribute` dispatch for one attribute:
`@event` and `:name` prefixes first, then the processor table; unmatched
names are no-ops.  `x-for` on a non-template element only warns; its
template-anchored expansion is modelled separately by
`processForAttribute`. -/
def processAttribute (s : PassState) (name : String) (a : AttrV) : PassState :=
  if strHead name '@' then
    { s with elem := { s.elem with
        listeners := s.elem.listeners ++ [String.mk (name.data.drop 1)] } }
  else if strHead name ':' then
    { s with elem := { s.elem with
        attrsOut := AttributeProcessor.processDynamicAttribute s.elem.attrsOut
          (String.mk (name.data.drop 1)) a.expr s.ctx s.elem.self } }
  else if name == "x-show" then
    { s with elem := { s.elem with
        hidden := !truthy (AttributeProcessor.evaluateExpression a.expr s.ctx s.elem.self) } }
  else if name == "x-if" then
    if !truthy (AttributeProcessor.evaluateExpression a.expr s.ctx s.elem.self) then
      { s with elem := { s.elem with attached := false } }
    else s
  else if name == "x-for" then
    s
  else if name == "x-html" then
    let v := AttributeProcessor.evaluateExpression a.expr s.ctx s.elem.self
    { s with elem := { s.elem with innerHTML := if truthy v then jsToString v else "" } }
  else if name == "x-text" then
    let v := AttributeProcessor.evaluateExpression a.expr s.ctx s.elem.self
    { s with elem := { s.elem with textContent := if truthy v then jsToString v else "" } }
  else if name == "x-model" then
    let v := AttributeProcessor.evaluateExpression a.expr s.ctx s.elem.self
    let init := if truthy v then jsToString v else ""
    { s with elem := { s.elem with
        value := init, datasetValue := init,
        listeners := s.elem.listeners ++ ["change"] } }
  else if name == "x-ref" then
    { s with ctx := setRef s.ctx a.raw s.elem.self }
  else s

/-- The attribute loop over one element's attribute snapshot. -/
def processAttributes (s : PassState) (attrs : List (String × AttrV)) : PassState :=
  attrs.foldl (fun st p => processAttribute st p.1 p.2) s

/-! ### `x-model` initialization and change handling -/

/-- `x-model` initialization: `element.value = element.dataset.value =
evaluateExpression(path, context, element) || ""` (the DOM coerces the
assigned value to a string). -/
def processModelAttributeInit (pathExpr : Expr) (context : Ctx) (element : Value) : String :=
  let v := AttributeProcessor.evaluateExpression pathExpr context element
  if truthy v then jsToString v else ""

/-- State observed by the `x-model` change listener: the context and the
number of re-renders triggered so far. -/
structure ModelState where
  ctx : Ctx
  renders : Nat

/-- The `change` listener registered by `processModelAttribute`:
`updateContext(context, event.target.value, attribute.value)` followed
by one `renderCallback()`.  An exception from `updateContext` escapes
the listener before the render callback runs. -/
def modelChangeHandler (path : String) (newValue : String) (st : ModelState) :
    Except String ModelState :=
  match AttributeProcessor.updateContext st.ctx (Value.str newValue) path with
  | .ok ctx2 => .ok { ctx := ctx2, renders := st.renders + 1 }
  | .error msg => .error msg

/-! ### Dataset parsing (`src/dataset-parser.ts`) -/

/-- Skip JSON whitespace. -/
def jsonSkipWs (s : List Char) : List Char :=
  s.dropWhile fun c => c == ' ' || c == '\t' || c == '\n' || c == '\r'

/-- Numeric value of a digit run (leading zeros allowed, as in fraction
and exponent parts). -/
def digitsVal (ds : List Char) : Nat :=
  ds.foldl (fun n c => n * 10 + (c.toNat - 48)) 0

/-- Parse the integer digits of a JSON number (leading zeros are only
legal for the number 0). -/
def jsonDigits (s : List Char) : Option (Nat × List Char) :=
  match s.span Char.isDigit with
  | (ds, rest) =>
    match ds with
    | [] => none
    | '0' :: _ :: _ => none
    | _ => some (digitsVal ds, rest)

/-- Exponent digits after an optional sign. -/
def jsonExpDigits (neg : Bool) (s : List Char) : Option (Int × List Char) :=
  match s.span Char.isDigit with
  | (ds, rest) =>
    if ds.isEmpty then none
    else some (if neg then -(digitsVal ds : Int) else (digitsVal ds : Int), rest)

/-- Exponent sign and digits. -/
def jsonExpSigned (s : List Char) : Option (Int × List Char) :=
  match s with
  | '+' :: rest => jsonExpDigits false rest
  | '-' :: rest => jsonExpDigits true rest
  | rest => jsonExpDigits false rest

/-- Optional exponent part of a JSON number; absent means exponent 0. -/
def jsonExpPart : List Char → Option (Int × List Char)
  | 'e' :: rest => jsonExpSigned rest
  | 'E' :: rest => jsonExpSigned rest
  | s => some (0, s)

/-- Optional fraction part of a JSON number: a dot must be followed by at
least one digit. -/
def jsonFracPart : List Char → Option (List Char × List Char)
  | '.' :: rest =>
    (match rest.span Char.isDigit with
     | (ds, rest2) => if ds.isEmpty then none else some (ds, rest2))
  | s => some (([] : List Char), s)

/-- Strip factors of ten from the mantissa while the decimal exponent is
negative, putting `m * 10 ^ e` in canonical form. -/
def stripTens : Nat → Nat → Int → (Nat × Int)
  | 0, m, e => (m, e)
  | fuel + 1, m, e =>
    if e < 0 && m % 10 == 0 && m != 0 then stripTens fuel (m / 10) (e + 1)
    else (m, e)

/-- Assemble the exact value of a parsed JSON number from its sign,
integer part, fraction digits and decimal exponent: integral results are
`num`, non-integral ones the canonical decimal `numD` (`-0` collapses to
`0`, as `String(-0)` would display). -/
def mkJsonNum (neg : Bool) (intPart : Nat) (fracDs : List Char) (expVal : Int) : Value :=
  let mant : Nat := intPart * 10 ^ fracDs.length + digitsVal fracDs
  if mant == 0 then Value.num 0
  else
    match stripTens (mant + 1) mant (expVal - fracDs.length) with
    | (m, sc) =>
      let mInt : Int := if neg then -(m : Int) else (m : Int)
      if 0 ≤ sc then Value.num (mInt * (10 : Int) ^ sc.toNat)
      else Value.numD mInt sc.natAbs

/-- Fraction and exponent parts following the integer digits of a JSON
number. -/
def jsonNumber (neg : Bool) (intPart : Nat) (s : List Char) : Option (Value × List Char) :=
  match jsonFracPart s with
  | none => none
  | some (fracDs, s1) =>
    match jsonExpPart s1 with
    | none => none
    | some (expVal, s2) => some (mkJsonNum neg intPart fracDs expVal, s2)

/-- Parse one JSON string body after the opening quote, handling the
standard escapes (`\uXXXX` escapes decode their code unit). -/
def jsonStrBody : Nat → List Char → Option (List Char × List Char)
  | 0, _ => none
  | _ + 1, [] => none
  | fuel + 1, c :: rest =>
    if c == '\x22' then some ([], rest)
    else if c == '\\' then
      match rest with
      | [] => none
      | e :: rest2 =>
        let dec : Option (Char × List Char) :=
          if e == '\x22' then some ('\x22', rest2)
          else if e == '\\' then some ('\\', rest2)
          else if e == '/' then some ('/', rest2)
          else if e == 'n' then some ('\n', rest2)
          else if e == 't' then some ('\t', rest2)
          else if e == 'r' then some ('\r', rest2)
          else if e == 'b' then some ('\x08', rest2)
          else if e == 'f' then some ('\x0c', rest2)
          else if e == 'u' then
            match rest2 with
            | h1 :: h2 :: h3 :: h4 :: rest3 =>
              let hv := fun (c : Char) =>
                if c.isDigit then some (c.toNat - 48)
                else if 'a' ≤ c && c ≤ 'f' then some (c.toNat - 87)
                else if 'A' ≤ c && c ≤ 'F' then some (c.toNat - 55)
                else none
              match hv h1, hv h2, hv h3, hv h4 with
              | some a, some b, some cc, some d =>
                some (Char.ofNat (((a * 16 + b) * 16 + cc) * 16 + d), rest3)
              | _, _, _, _ => none
            | _ => none
          else none
        match dec with
        | some (d, rest3) =>
          match jsonStrBody fuel rest3 with
          | some (body, rest4) => some (d :: body, rest4)
          | none => none
        | none => none
    else if c.toNat < 32 then none
    else
      match jsonStrBody fuel rest with
      | some (body, rest2) => some (c :: body, rest2)
      | none => none

mutual

/-- Recursive-descent `JSON.parse` on the value model.  Numbers follow
the full JSON grammar (optional fraction and exponent) and are taken as
exact decimals via `mkJsonNum`. -/
def jsonParseVal : Nat → List Char → Option (Value × List Char)
  | 0, _ => none
  | fuel + 1, s =>
    match jsonSkipWs s with
    | [] => none
    | c :: rest =>
      if c == '\x7b' then
        match jsonSkipWs rest with
        | '\x7d' :: rest2 => some (Value.obj [], rest2)
        | rest2 => jsonParseMembers fuel rest2 []
      else if c == '[' then
        match jsonSkipWs rest with
        | ']' :: rest2 => some (Value.arr [], rest2)
        | rest2 => jsonParseElems fuel rest2 []
      else if c == '\x22' then
        match jsonStrBody (rest.length + 1) rest with
        | some (body, rest2) => some (Value.str (String.mk body), rest2)
        | none => none
      else if c == 't' then
        if startsWith ['r', 'u', 'e'] rest then some (Value.bool true, rest.drop 3) else none
      else if c == 'f' then
        if startsWith ['a', 'l', 's', 'e'] rest then some (Value.bool false, rest.drop 4)
        else none
      else if c == 'n' then
        if startsWith ['u', 'l', 'l'] rest then some (Value.null, rest.drop 3) else none
      else if c == '-' then
        match jsonDigits rest with
        | some (n, rest2) => jsonNumber true n rest2
        | none => none
      else
        match jsonDigits (c :: rest) with
        | some (n, rest2) => jsonNumber false n rest2
        | none => none

/-- Object members after `\x7b` (first member expected). -/
def jsonParseMembers (fuel : Nat) (s : List Char) (acc : List (String × Value)) :
    Option (Value × List Char) :=
  match fuel with
  | 0 => none
  | fuel + 1 =>
    match jsonSkipWs s with
    | '\x22' :: rest =>
      match jsonStrBody (rest.length + 1) rest with
      | some (key, rest2) =>
        match jsonSkipWs rest2 with
        | ':' :: rest3 =>
          match jsonParseVal fuel rest3 with
          | some (v, rest4) =>
            match jsonSkipWs rest4 with
            | ',' :: rest5 => jsonParseMembers fuel rest5 (acc ++ [(String.mk key, v)])
            | '\x7d' :: rest5 => some (Value.obj (acc ++ [(String.mk key, v)]), rest5)
            | _ => none
          | none => none
        | _ => none
      | none => none
    | _ => none

/-- Array elements after `[` (first element expected). -/
def jsonParseElems (fuel : Nat) (s : List Char) (acc : List Value) :
    Option (Value × List Char) :=
  match fuel with
  | 0 => none
  | fuel + 1 =>
    match jsonParseVal fuel s with
    | some (v, rest) =>
      match jsonSkipWs rest with
      | ',' :: rest2 => jsonParseElems fuel rest2 (acc ++ [v])
      | ']' :: rest2 => some (Value.arr (acc ++ [v]), rest2)
      | _ => none
    | none => none

end

/-- `JSON.parse` model: parse one value and require only whitespace after
it. -/
def jsonParse (s : String) : Option Value :=
  match jsonParseVal (s.length + 1) s.data with
  | some (v, rest) => if jsonSkipWs rest == [] then some v else none
  | none => none

/-- `data.startsWith("\x7b") || data.startsWith("[") ||
data.startsWith('\x22')`. -/
def startsJsonish (data : String) : Bool :=
  strHead data '\x7b' || strHead data '[' || strHead data '\x22'

/-- Result of `safeParse`: either the original string, or a parsed value
carrying the attached own-property `json` (which holds the raw source
string). -/
inductive ParseResult where
  | plain (s : String)
  | parsedWithJson (v : Value) (raw : String)

/-- `safeParse`: JSON-looking strings are parsed; `val.json = data` then
succeeds on objects (visible in the fields) and arrays (carried
alongside, since array element lists hold no named properties), while on
a primitive parse result the strict-module assignment throws a
`TypeError` that the surrounding `catch` converts into returning the
original string.  Parse failures and non-JSON-looking strings return the
original string. -/
def safeParse (data : String) : ParseResult :=
  if startsJsonish data then
    match jsonParse data with
    | some (Value.obj f) =>
      ParseResult.parsedWithJson (Value.obj (setAssoc f "json" (Value.str data))) data
    | some (Value.arr l) => ParseResult.parsedWithJson (Value.arr l) data
    | some _ => ParseResult.plain data
    | none => ParseResult.plain data
  else ParseResult.plain data

/-- `parseDataset` (TypeScript variant): every truthy (non-empty)
dataset value goes through `safeParse`; empty strings are kept as-is. -/
def parseDataset (dataset : List (String × String)) : List (String × ParseResult) :=
  dataset.map fun p => (p.1, if p.2 != "" then safeParse p.2 else ParseResult.plain p.2)

/-! ### Spec-side and auxiliary definitions -/

/-- Well-formedness of a single mustache block: its key contains no
closing brace and no newline, and the closing tag `\x7b\x7b/key\x7d\x7d`
does not occur before the seam inside `content ++ closerTag key`. -/
def wellFormedBlock (key content : List Char) : Prop :=
  (∀ c ∈ key, ((c == '\x7d') || (c == '\n')) = false) ∧
  (∀ i, i < content.length →
    startsWith (closerTag key) ((content ++ closerTag key).drop i) = false)

instance (key content : List Char) : Decidable (wellFormedBlock key content) := by
  unfold wellFormedBlock
  exact instDecidableAnd

/-- The template consisting of exactly one section block. -/
def sectionTemplate (marker : Char) (key content : List Char) : List Char :=
  '\x7b' :: '\x7b' :: marker :: (key ++ '\x7d' :: '\x7d' :: (content ++ closerTag key))

/-- The entity replacement the spec describes for one character. -/
def escapedFormChar (c : Char) : List Char :=
  if c == '&' then "&amp;".data
  else if c == '<' then "&lt;".data
  else if c == '>' then "&gt;".data
  else if c == '\x22' then "&quot;".data
  else if c == '\x27' then "&#039;".data
  else [c]

/-- Character-wise entity escaping of a character list. -/
def escConcat : List Char → List Char
  | [] => []
  | c :: rest => escapedFormChar c ++ escConcat rest

/-- The HTML-entity-escaped form of a string as described by the spec:
`& < > \x22 \x27` replaced by their entity equivalents. -/
def escapedForm (s : String) : String :=
  String.mk (escConcat s.data)

/-- Precondition making `updateContext` total on a dotted path: walking
the existing context along the path parts meets only objects or falsy
(in particular missing) values before the final segment. -/
def pathOkay : List (String × Value) → List String → Bool
  | _, [] => true
  | _, [_] => true
  | fields, p :: rest =>
    match ctxGet fields p with
    | Value.obj cf => pathOkay cf rest
    | v => !truthy v

/-! ## Helper lemmas -/

theorem startsWith_append_self (pat rest : List Char) :
    startsWith pat (pat ++ rest) = true := by
  induction pat with
  | nil => rfl
  | cons p ps ih => simp [startsWith, ih]

theorem drop_len_append (a b : List Char) : (a ++ b).drop a.length = b := by
  induction a with
  | nil => rfl
  | cons c cs ih => simp [ih]

theorem splitAtSub_cons (pat : List Char) (noNL : Bool) (c : Char) (cs : List Char) :
    splitAtSub pat noNL (c :: cs) =
      (if startsWith pat (c :: cs) then some ([], (c :: cs).drop pat.length)
       else if noNL && c == '\n' then none
       else
         match splitAtSub pat noNL cs with
         | some (pre, post) => some (c :: pre, post)
         | none => none) := rfl

/-- The lazy scan finds the first occurrence: if `pat` occurs nowhere
strictly inside `a` (including occurrences spanning into `pat` itself),
`splitAtSub` splits `a ++ pat ++ b` at the seam. -/
theorem splitAtSub_first (pat a b : List Char) (hne : pat ≠ [])
    (h : ∀ i, i < a.length → startsWith pat ((a ++ pat ++ b).drop i) = false) :
    splitAtSub pat false (a ++ pat ++ b) = some (a, b) := by
  induction a with
  | nil =>
    match pat, hne with
    | p :: ps, _ =>
      show splitAtSub (p :: ps) false ((p :: ps) ++ b) = some ([], b)
      rw [List.cons_append, splitAtSub_cons]
      rw [show startsWith (p :: ps) (p :: (ps ++ b)) = true from
        startsWith_append_self (p :: ps) b]
      simp [drop_len_append (p :: ps) b]
  | cons c cs ih =>
    rw [show (c :: cs) ++ pat ++ b = c :: (cs ++ pat ++ b) by simp, splitAtSub_cons]
    rw [show startsWith pat (c :: (cs ++ pat ++ b)) = false from h 0 (by simp)]
    rw [ih fun i hi => h (i + 1) (by simpa using Nat.succ_lt_succ hi)]
    simp

/-- The lazy key group stops at the first `\x7d\x7d`: when the key
contains neither `\x7d` nor a newline, the seam split heads the
candidate list. -/
theorem keySplits_head (key rest : List Char)
    (hk : ∀ c ∈ key, ((c == '\x7d') || (c == '\n')) = false) :
    ∃ tail, keySplits (key ++ '\x7d' :: '\x7d' :: rest) = (key, rest) :: tail := by
  induction key with
  | nil =>
    refine ⟨?_, ?_⟩
    · exact if '\x7d' == '\n' then [] else
        (keySplits ('\x7d' :: rest)).map (fun p => ('\x7d' :: p.1, p.2))
    · simp [keySplits, startsWith]
  | cons c cs ih =>
    have hc := hk c (by simp)
    have hcs : ∀ c ∈ cs, ((c == '\x7d') || (c == '\n')) = false := by
      intro d hd; exact hk d (by simp [hd])
    obtain ⟨tail, htail⟩ := ih hcs
    have hcne : ¬ c = '\x7d' ∧ ¬ c = '\n' := by
      constructor <;> intro h <;> subst h <;> simp at hc
    have hbrace : ('\x7d' == c) = false := by
      simp only [beq_eq_false_iff_ne, ne_eq]
      intro h; exact hcne.1 h.symm
    have hnl : (c == '\n') = false := by
      simp only [beq_eq_false_iff_ne, ne_eq]
      exact hcne.2
    refine ⟨tail.map (fun p => (c :: p.1, p.2)), ?_⟩
    rw [List.cons_append, keySplits]
    simp only [startsWith, hbrace, hnl, htail, Bool.false_and, if_neg Bool.false_ne_true]
    simp

theorem closerTag_ne_nil (key : List Char) : closerTag key ≠ [] := by
  simp [closerTag]

/-- On a well-formed block, the regex body matches exactly the written
key and content and consumes the whole input. -/
theorem matchTag_single (key content : List Char) (h : wellFormedBlock key content) :
    matchTag (key ++ '\x7d' :: '\x7d' :: (content ++ closerTag key)) =
      some (key, content, []) := by
  obtain ⟨hk, hc⟩ := h
  obtain ⟨tail, htail⟩ := keySplits_head key (content ++ closerTag key) hk
  have hsplit : splitAtSub (closerTag key) false (content ++ closerTag key) =
      some (content, []) := by
    have := splitAtSub_first (closerTag key) content [] (closerTag_ne_nil key)
      (by simpa using hc)
    simpa using this
  unfold matchTag
  rw [htail]
  simp [List.findSome?, hsplit]

/-- One well-formed block is replaced by its body, and nothing else. -/
theorem sectionPass_single (m : Char) (body : List Char → List Char → List Char)
    (key content : List Char) (h : wellFormedBlock key content) :
    sectionPass m body (sectionTemplate m key content) = body key content := by
  unfold sectionPass sectionTemplate
  rw [show ('\x7b' :: '\x7b' :: m ::
        (key ++ '\x7d' :: '\x7d' :: (content ++ closerTag key))).length =
      (key ++ '\x7d' :: '\x7d' :: (content ++ closerTag key)).length + 3 by simp,
    show (key ++ '\x7d' :: '\x7d' :: (content ++ closerTag key)).length + 3 + 1 =
      ((key ++ '\x7d' :: '\x7d' :: (content ++ closerTag key)).length + 3) + 1 from rfl]
  rw [sectionPassAux]
  simp only [startsWith, beq_self_eq_true, Bool.and_true, Bool.and_self, List.drop,
    List.drop_zero, if_true]
  rw [matchTag_single key content h]
  simp [sectionPassAux]

theorem replaceAllChar_append (c : Char) (r a b : List Char) :
    TemplateRenderer.replaceAllChar c r (a ++ b) =
      TemplateRenderer.replaceAllChar c r a ++ TemplateRenderer.replaceAllChar c r b := by
  induction a with
  | nil => rfl
  | cons d ds ih => simp [TemplateRenderer.replaceAllChar, ih]

theorem escapeChainChar (c : Char) :
    TemplateRenderer.replaceAllChar '\x27' "&#039;".data
      (TemplateRenderer.replaceAllChar '\x22' "&quot;".data
        (TemplateRenderer.replaceAllChar '>' "&gt;".data
          (TemplateRenderer.replaceAllChar '<' "&lt;".data
            (TemplateRenderer.replaceAllChar '&' "&amp;".data [c])))) =
      escapedFormChar c := by
  by_cases h1 : c = '&'
  · subst h1; rfl
  by_cases h2 : c = '<'
  · subst h2; rfl
  by_cases h3 : c = '>'
  · subst h3; rfl
  by_cases h4 : c = '\x22'
  · subst h4; rfl
  by_cases h5 : c = '\x27'
  · subst h5; rfl
  simp [TemplateRenderer.replaceAllChar, escapedFormChar, h1, h2, h3, h4, h5]

theorem escapeChain (l : List Char) :
    TemplateRenderer.replaceAllChar '\x27' "&#039;".data
      (TemplateRenderer.replaceAllChar '\x22' "&quot;".data
        (TemplateRenderer.replaceAllChar '>' "&gt;".data
          (TemplateRenderer.replaceAllChar '<' "&lt;".data
            (TemplateRenderer.replaceAllChar '&' "&amp;".data l)))) =
      escConcat l := by
  induction l with
  | nil => rfl
  | cons c cs ih =>
    have hsplit : TemplateRenderer.replaceAllChar '&' "&amp;".data (c :: cs) =
        TemplateRenderer.replaceAllChar '&' "&amp;".data [c] ++
          TemplateRenderer.replaceAllChar '&' "&amp;".data cs := by
      simp [TemplateRenderer.replaceAllChar]
    rw [hsplit, replaceAllChar_append, replaceAllChar_append, replaceAllChar_append,
      replaceAllChar_append, escapeChainChar, ih]
    rfl

/-- The five sequential replacement passes of `escapeHTML` coincide with
character-wise entity escaping on strings. -/
theorem escapeHTML_str (s : String) :
    TemplateRenderer.escapeHTML (Value.str s) = escapedForm s := by
  show String.mk
      (TemplateRenderer.replaceAllChar '\x27' "&#039;".data
        (TemplateRenderer.replaceAllChar '\x22' "&quot;".data
          (TemplateRenderer.replaceAllChar '>' "&gt;".data
            (TemplateRenderer.replaceAllChar '<' "&lt;".data
              (TemplateRenderer.replaceAllChar '&' "&amp;".data s.data))))) = escapedForm s
  rw [escapeChain]
  rfl

/-! ## Claim theorems -/

/-- Claim C1 (interpolation round-trip): for every context binding the
field `name` to a string `s`, rendering `\x7b\x7bname\x7d\x7d` yields
the HTML-entity-escaped form of `s` (with `& < > \x22 \x27` replaced by
their entity equivalents) and rendering `\x7b\x7b\x7bname\x7d\x7d\x7d`
yields `s` verbatim, at every recursion budget. -/
theorem spec_C1 (fuel : Nat) (ctx : Ctx) (s : String)
    (h : ctxGet ctx "name" = Value.str s) :
    TemplateRenderer.render (fuel + 1) "\x7b\x7bname\x7d\x7d" ctx = escapedForm s ∧
    TemplateRenderer.render (fuel + 1) "\x7b\x7b\x7bname\x7d\x7d\x7d" ctx = s := by
  constructor
  · have e1 : TemplateRenderer.render (fuel + 1) "\x7b\x7bname\x7d\x7d" ctx =
        String.mk ((TemplateRenderer.escapeHTML
          (jsCoalesce (ctxGet ctx "name") (Value.str ""))).data ++ []) := rfl
    rw [e1, h]
    show String.mk ((TemplateRenderer.escapeHTML (Value.str s)).data ++ []) = escapedForm s
    rw [List.append_nil, escapeHTML_str]
  · have e2 : TemplateRenderer.render (fuel + 1) "\x7b\x7b\x7bname\x7d\x7d\x7d" ctx =
        String.mk ((TemplateRenderer.stringifyValue (ctxGet ctx "name")).data ++ []) := rfl
    rw [e2, h]
    show String.mk (s.data ++ []) = s
    rw [List.append_nil]

/-- Witness for C1 at the spec's concrete scenario value `<b>x</b>`. -/
theorem spec_C1_witness :
    ctxGet [("name", Value.str "<b>x</b>")] "name" = Value.str "<b>x</b>" ∧
    TemplateRenderer.render 1 "\x7b\x7bname\x7d\x7d" [("name", Value.str "<b>x</b>")] =
      "&lt;b&gt;x&lt;/b&gt;" ∧
    TemplateRenderer.render 1 "\x7b\x7b\x7bname\x7d\x7d\x7d" [("name", Value.str "<b>x</b>")] =
      "<b>x</b>" := by
  refine ⟨rfl, ?_, (spec_C1 0 [("name", Value.str "<b>x</b>")] "<b>x</b>" rfl).2⟩
  rw [(spec_C1 0 [("name", Value.str "<b>x</b>")] "<b>x</b>" rfl).1]
  decide

/-- Claim C2 (section semantics): on a well-formed section template
`\x7b\x7b#key\x7d\x7dcontent\x7b\x7b/key\x7d\x7d`, a key resolving to an
array renders the block once per element in input order, concatenated,
each under the overlay `{...context, ...item, ".": item}` (the overlay
binds the reserved current-item key `"."` to the element); a truthy
non-array renders the block once with the value under `"."`; any other
value yields the empty string.  The spec's concrete scenario over
`users = [Alice, Bob]` renders `"Alice Bob "`. -/
theorem spec_C2 (fuel : Nat) (ctx : Ctx) (key content : List Char)
    (h : wellFormedBlock key content) :
    (∀ items, TemplateRenderer.resolveValue ctx (jsTrim key) = Value.arr items →
      TemplateRenderer.renderSections fuel (sectionTemplate '#' key content) ctx =
        (items.map fun item =>
          TemplateRenderer.renderF fuel content (TemplateRenderer.sectionOverlay ctx item)).flatten) ∧
    (∀ v, TemplateRenderer.resolveValue ctx (jsTrim key) = v →
      (∀ items, v ≠ Value.arr items) → truthy v = true →
      TemplateRenderer.renderSections fuel (sectionTemplate '#' key content) ctx =
        TemplateRenderer.renderF fuel content ((".", v) :: ctx)) ∧
    (∀ v, TemplateRenderer.resolveValue ctx (jsTrim key) = v →
      (∀ items, v ≠ Value.arr items) → truthy v = false →
      TemplateRenderer.renderSections fuel (sectionTemplate '#' key content) ctx = []) ∧
    (∀ item, ctxGet (TemplateRenderer.sectionOverlay ctx item) "." = item) ∧
    TemplateRenderer.render 2 "\x7b\x7b#users\x7d\x7d\x7b\x7bname\x7d\x7d \x7b\x7b/users\x7d\x7d"
      [("users", Value.arr [Value.obj [("name", Value.str "Alice")],
        Value.obj [("name", Value.str "Bob")]])] = "Alice Bob " := by
  have hpass : TemplateRenderer.renderSections fuel (sectionTemplate '#' key content) ctx =
      TemplateRenderer.secBody (fun t c => TemplateRenderer.renderF fuel t c) ctx key content :=
    sectionPass_single '#' _ key content h
  refine ⟨?_, ?_, ?_, ?_, by decide⟩
  · intro items hv
    rw [hpass]
    unfold TemplateRenderer.secBody
    rw [hv]
  · intro v hv hnarr ht
    rw [hpass]
    unfold TemplateRenderer.secBody
    rw [hv]
    cases v with
    | arr items => exact absurd rfl (hnarr items)
    | undef => simp [truthy] at ht
    | null => simp [truthy] at ht
    | bool b => simp [ht]
    | num n => simp [ht]
    | numD m e => simp [ht]
    | str s => simp [ht]
    | obj f => simp [ht]
    | elem i => simp [ht]
  · intro v hv hnarr ht
    rw [hpass]
    unfold TemplateRenderer.secBody
    rw [hv]
    cases v with
    | arr items => exact absurd rfl (hnarr items)
    | undef => simp [ht]
    | null => simp [ht]
    | bool b => simp [ht]
    | num n => simp [ht]
    | numD m e => simp [ht]
    | str s => simp [ht]
    | obj f => simp [truthy] at ht
    | elem i => simp [truthy] at ht
  · intro item
    rfl

/-- Witness for C2 over the concrete context `k = [1, 2]`. -/
theorem spec_C2_witness :
    wellFormedBlock "k".data "A".data ∧
    TemplateRenderer.resolveValue [("k", Value.arr [Value.num 1, Value.num 2])]
      (jsTrim "k".data) = Value.arr [Value.num 1, Value.num 2] ∧
    TemplateRenderer.renderSections 1 (sectionTemplate '#' "k".data "A".data)
      [("k", Value.arr [Value.num 1, Value.num 2])] =
      ([Value.num 1, Value.num 2].map fun item =>
        TemplateRenderer.renderF 1 "A".data
          (TemplateRenderer.sectionOverlay [("k", Value.arr [Value.num 1, Value.num 2])] item)).flatten := by
  refine ⟨by decide, rfl, ?_⟩
  exact (spec_C2 1 [("k", Value.arr [Value.num 1, Value.num 2])] "k".data "A".data
    (by decide)).1 [Value.num 1, Value.num 2] rfl

/-- Claim C3 (inverted-section semantics): on a well-formed inverted
section template, the block is rendered — recursively, with the same
context — exactly when the key resolves to a falsy value or an empty
array, and yields the empty string otherwise; consequently a section and
an inverted section over the same key in the same context never both
produce non-empty output. -/
theorem spec_C3 (fuel : Nat) (ctx : Ctx) (key content : List Char)
    (h : wellFormedBlock key content) :
    (∀ v, TemplateRenderer.resolveValue ctx (jsTrim key) = v →
      TemplateRenderer.renderInvertedSections fuel (sectionTemplate '^' key content) ctx =
        (if !truthy v || TemplateRenderer.isEmptyArr v then
          TemplateRenderer.renderF fuel content ctx
        else [])) ∧
    (∀ content2, wellFormedBlock key content2 →
      TemplateRenderer.renderInvertedSections fuel (sectionTemplate '^' key content) ctx ≠ [] →
      TemplateRenderer.renderSections fuel (sectionTemplate '#' key content2) ctx = []) := by
  have hinv : ∀ v, TemplateRenderer.resolveValue ctx (jsTrim key) = v →
      TemplateRenderer.renderInvertedSections fuel (sectionTemplate '^' key content) ctx =
        (if !truthy v || TemplateRenderer.isEmptyArr v then
          TemplateRenderer.renderF fuel content ctx
        else []) := by
    intro v hv
    have hpass : TemplateRenderer.renderInvertedSections fuel
        (sectionTemplate '^' key content) ctx =
        TemplateRenderer.invBody (fun t c => TemplateRenderer.renderF fuel t c) ctx key content :=
      sectionPass_single '^' _ key content h
    rw [hpass]
    unfold TemplateRenderer.invBody
    rw [hv]
  refine ⟨hinv, ?_⟩
  intro content2 h2 hne
  have hpass2 : TemplateRenderer.renderSections fuel (sectionTemplate '#' key content2) ctx =
      TemplateRenderer.secBody (fun t c => TemplateRenderer.renderF fuel t c) ctx key content2 :=
    sectionPass_single '#' _ key content2 h2
  have hv := hinv (TemplateRenderer.resolveValue ctx (jsTrim key)) rfl
  rw [hpass2]
  unfold TemplateRenderer.secBody
  cases hcond : (!truthy (TemplateRenderer.resolveValue ctx (jsTrim key)) ||
      TemplateRenderer.isEmptyArr (TemplateRenderer.resolveValue ctx (jsTrim key))) with
  | false =>
    rw [hcond] at hv
    simp at hv
    exact absurd hv hne
  | true =>
    rcases hres : TemplateRenderer.resolveValue ctx (jsTrim key) with
        _ | _ | b | n | ⟨m, e⟩ | s | items | f | i
      <;> rw [hres] at hcond
    · simp [truthy]
    · simp [truthy]
    · have hb : b = false := by
        simpa [truthy, TemplateRenderer.isEmptyArr] using hcond
      subst hb
      simp [truthy]
    · have hn : n = 0 := by
        simpa [truthy, TemplateRenderer.isEmptyArr] using hcond
      subst hn
      simp [truthy]
    · have hm : m = 0 := by
        simpa [truthy, TemplateRenderer.isEmptyArr] using hcond
      subst hm
      simp [truthy]
    · have hs : s = "" := by
        simpa [truthy, TemplateRenderer.isEmptyArr] using hcond
      subst hs
      simp [truthy]
    · cases items with
      | nil => simp
      | cons a l => simp [truthy, TemplateRenderer.isEmptyArr] at hcond
    · simp [truthy, TemplateRenderer.isEmptyArr] at hcond
    · simp [truthy, TemplateRenderer.isEmptyArr] at hcond

/-- Witness for C3: an empty `users` array renders the inverted block. -/
theorem spec_C3_witness :
    wellFormedBlock "users".data "No users".data ∧
    TemplateRenderer.resolveValue [("users", Value.arr [])] (jsTrim "users".data) =
      Value.arr [] ∧
    TemplateRenderer.renderInvertedSections 1 (sectionTemplate '^' "users".data "No users".data)
      [("users", Value.arr [])] =
      TemplateRenderer.renderF 1 "No users".data [("users", Value.arr [])] := by
  refine ⟨by decide, rfl, ?_⟩
  have := (spec_C3 1 [("users", Value.arr [])] "users".data "No users".data (by decide)).1
    (Value.arr []) rfl
  simpa using this

/-! ### Lemmas for `x-for` -/

theorem parseIterGo_length (iteratorVar : String) (ctx : Ctx) :
    ∀ (items : List Value) (i : Nat),
      (AttributeProcessor.parseIterGo iteratorVar ctx i items).length = items.length := by
  intro items
  induction items with
  | nil => intro i; rfl
  | cons a l ih => intro i; simp [AttributeProcessor.parseIterGo, ih (i + 1)]

theorem parseIterGo_getElem (iteratorVar : String) (ctx : Ctx) :
    ∀ (items : List Value) (i k : Nat),
      (AttributeProcessor.parseIterGo iteratorVar ctx i items)[k]? =
        items[k]?.map fun item =>
          ("_idx", Value.num ((i + k : Nat) : Int)) :: (iteratorVar, item) :: ctx := by
  intro items
  induction items with
  | nil => intro i k; simp [AttributeProcessor.parseIterGo]
  | cons a l ih =>
    intro i k
    cases k with
    | zero => simp [AttributeProcessor.parseIterGo]
    | succ k =>
      rw [show i + (k + 1) = (i + 1) + k by omega]
      simp [AttributeProcessor.parseIterGo, ih (i + 1) k]

theorem insertBefore_append (pre post ns : List AttributeProcessor.DomNode)
    (hpre : AttributeProcessor.DomNode.anchor ∉ pre) :
    AttributeProcessor.insertBefore (pre ++ AttributeProcessor.DomNode.anchor :: post) ns =
      pre ++ ns ++ AttributeProcessor.DomNode.anchor :: post := by
  induction pre with
  | nil => rfl
  | cons c cs ih =>
    have hc : c ≠ AttributeProcessor.DomNode.anchor := by
      intro hcc; exact hpre (by simp [hcc])
    have hcs : AttributeProcessor.DomNode.anchor ∉ cs := by
      intro hm; exact hpre (by simp [hm])
    cases c with
    | anchor => exact absurd rfl hc
    | node id => simp [AttributeProcessor.insertBefore, ih hcs]

theorem processFor_fold (f : List AttributeProcessor.DomNode → Ctx → List AttributeProcessor.DomNode)
    (content post : List AttributeProcessor.DomNode)
    (hf : ∀ c, AttributeProcessor.DomNode.anchor ∉ f content c) :
    ∀ (iterations : List Ctx) (pre : List AttributeProcessor.DomNode),
      AttributeProcessor.DomNode.anchor ∉ pre →
      AttributeProcessor.processForAttribute f content
          (pre ++ AttributeProcessor.DomNode.anchor :: post) iterations =
        pre ++ (iterations.map (f content)).flatten ++
          AttributeProcessor.DomNode.anchor :: post := by
  intro iterations
  induction iterations with
  | nil => intro pre hpre; simp [AttributeProcessor.processForAttribute]
  | cons itCtx rest ih =>
    intro pre hpre
    have hpre2 : AttributeProcessor.DomNode.anchor ∉ pre ++ f content itCtx := by
      intro hm
      rcases List.mem_append.mp hm with h1 | h2
      · exact hpre h1
      · exact hf itCtx h2
    have step : AttributeProcessor.processForAttribute f content
        (pre ++ AttributeProcessor.DomNode.anchor :: post) (itCtx :: rest) =
        AttributeProcessor.processForAttribute f content
          ((pre ++ f content itCtx) ++ AttributeProcessor.DomNode.anchor :: post) rest := by
      unfold AttributeProcessor.processForAttribute
      rw [List.foldl_cons, insertBefore_append pre post (f content itCtx) hpre]
    rw [step, ih _ hpre2]
    simp

/-- Claim C4 (`x-for` iteration): when the collection expression
evaluates to an array of `n` items, `parseListIterations` produces
exactly `n` overlay contexts in collection order, the `k`-th being the
fresh overlay `{...outerContext, <var>: item_k, _idx: k}` — it exposes
`item_k` under the loop variable and `k` under `_idx` while every other
field falls through to the outer context — and `processForAttribute`
inserts one processed clone of the template content per item immediately
before the template anchor, preserving collection order. -/
theorem spec_C4 (iteratorVar : String) (collectionExpr : Expr) (ctx : Ctx)
    (items : List Value)
    (hcoll : evalExpr collectionExpr ctx = Except.ok (Value.arr items))
    (f : List AttributeProcessor.DomNode → Ctx → List AttributeProcessor.DomNode)
    (content pre post : List AttributeProcessor.DomNode)
    (hpre : AttributeProcessor.DomNode.anchor ∉ pre)
    (hf : ∀ c, AttributeProcessor.DomNode.anchor ∉ f content c)
    (hvar : iteratorVar ≠ "_idx") :
    (AttributeProcessor.parseListIterations iteratorVar collectionExpr ctx).length =
      items.length ∧
    (∀ k : Nat, (AttributeProcessor.parseListIterations iteratorVar collectionExpr ctx)[k]? =
      items[k]?.map fun item =>
        ("_idx", Value.num ((k : Nat) : Int)) :: (iteratorVar, item) :: ctx) ∧
    (∀ (k : Nat) (item : Value), items[k]? = some item →
      ctxGet (("_idx", Value.num ((k : Nat) : Int)) :: (iteratorVar, item) :: ctx) iteratorVar =
        item ∧
      ctxGet (("_idx", Value.num ((k : Nat) : Int)) :: (iteratorVar, item) :: ctx) "_idx" =
        Value.num ((k : Nat) : Int) ∧
      (∀ key2, key2 ≠ iteratorVar → key2 ≠ "_idx" →
        ctxGet (("_idx", Value.num ((k : Nat) : Int)) :: (iteratorVar, item) :: ctx) key2 =
          ctxGet ctx key2)) ∧
    AttributeProcessor.processForAttribute f content
        (pre ++ AttributeProcessor.DomNode.anchor :: post)
        (AttributeProcessor.parseListIterations iteratorVar collectionExpr ctx) =
      pre ++
        ((AttributeProcessor.parseListIterations iteratorVar collectionExpr ctx).map
          (f content)).flatten ++
        AttributeProcessor.DomNode.anchor :: post := by
  have hiter : AttributeProcessor.parseListIterations iteratorVar collectionExpr ctx =
      AttributeProcessor.parseIterGo iteratorVar ctx 0 items := by
    unfold AttributeProcessor.parseListIterations
    rw [hcoll]
  refine ⟨?_, ?_, ?_, ?_⟩
  · rw [hiter]; exact parseIterGo_length iteratorVar ctx items 0
  · intro k
    rw [hiter, parseIterGo_getElem iteratorVar ctx items 0 k]
    simp
  · intro k item _
    have h1 : (("_idx" : String) == iteratorVar) = false := by
      simp only [beq_eq_false_iff_ne, ne_eq]
      intro hcc; exact hvar hcc.symm
    refine ⟨?_, rfl, ?_⟩
    · simp [ctxGet, List.find?_cons, h1]
    · intro key2 hk1 hk2
      have h2 : (("_idx" : String) == key2) = false := by
        simp only [beq_eq_false_iff_ne, ne_eq]
        intro hcc; exact hk2 hcc.symm
      have h3 : (iteratorVar == key2) = false := by
        simp only [beq_eq_false_iff_ne, ne_eq]
        intro hcc; exact hk1 hcc.symm
      simp [ctxGet, List.find?_cons, h2, h3]
  · rw [hiter]
    exact processFor_fold f content post hf _ pre hpre

/-- Witness for C4 on the spec's scenario collection `[a, b, c]`:
three contexts with `_idx` 0, 1, 2 in order, inserted before the
anchor. -/
theorem spec_C4_witness :
    evalExpr (Expr.ident "items")
        [("items", Value.arr [Value.str "a", Value.str "b", Value.str "c"])] =
      Except.ok (Value.arr [Value.str "a", Value.str "b", Value.str "c"]) ∧
    (AttributeProcessor.parseListIterations "item" (Expr.ident "items")
        [("items", Value.arr [Value.str "a", Value.str "b", Value.str "c"])]).length = 3 ∧
    (AttributeProcessor.parseListIterations "item" (Expr.ident "items")
        [("items", Value.arr [Value.str "a", Value.str "b", Value.str "c"])])[1]? =
      some (("_idx", Value.num 1) :: ("item", Value.str "b") ::
        [("items", Value.arr [Value.str "a", Value.str "b", Value.str "c"])]) ∧
    AttributeProcessor.processForAttribute
        (fun _content c => [AttributeProcessor.DomNode.node
          (match ctxGet c "_idx" with | Value.num n => n.toNat | _ => 99)])
        [] [AttributeProcessor.DomNode.node 7, AttributeProcessor.DomNode.anchor]
        (AttributeProcessor.parseListIterations "item" (Expr.ident "items")
          [("items", Value.arr [Value.str "a", Value.str "b", Value.str "c"])]) =
      [AttributeProcessor.DomNode.node 7, AttributeProcessor.DomNode.node 0,
        AttributeProcessor.DomNode.node 1, AttributeProcessor.DomNode.node 2,
        AttributeProcessor.DomNode.anchor] := by
  have h := spec_C4 "item" (Expr.ident "items")
    [("items", Value.arr [Value.str "a", Value.str "b", Value.str "c"])]
    [Value.str "a", Value.str "b", Value.str "c"] rfl
    (fun _content c => [AttributeProcessor.DomNode.node
      (match ctxGet c "_idx" with | Value.num n => n.toNat | _ => 99)])
    [] [AttributeProcessor.DomNode.node 7] []
    (by decide) (fun c => by simp) (by decide)
  refine ⟨rfl, h.1, ?_, ?_⟩
  · rw [h.2.1 1]; rfl
  · have h4 := h.2.2.2
    simpa using h4

/-! ### Claim C5 -/

set_option maxHeartbeats 1000000 in
theorem processAttribute_attached_false (s : PassState) (name : String) (a : AttrV)
    (h : s.elem.attached = false) : (processAttribute s name a).elem.attached = false := by
  unfold processAttribute
  split_ifs <;> simp [h]

/-- Counterexample to claim C5 as stated: on an element carrying
`x-if="false"` followed by `x-text`, the `x-if` directive removes the
element (`attached = false`), yet the later `x-text` directive still
runs on the detached element and sets its text content to `"after"` —
under the claim, no later directive would have run and `textContent`
would have stayed `""`. -/
theorem spec_C5_cex :
    (processAttributes
        ⟨⟨"div", Value.elem 0, true, false, "", "", "", "", [], []⟩, []⟩
        [("x-if", ⟨"false", Expr.lit (Value.bool false)⟩),
         ("x-text", ⟨"msg", Expr.lit (Value.str "after")⟩)]).elem.attached = false ∧
    (processAttributes
        ⟨⟨"div", Value.elem 0, true, false, "", "", "", "", [], []⟩, []⟩
        [("x-if", ⟨"false", Expr.lit (Value.bool false)⟩),
         ("x-text", ⟨"msg", Expr.lit (Value.str "after")⟩)]).elem.textContent = "after" :=
  ⟨rfl, rfl⟩

/-- Claim C5, amended: when an `x-if` expression evaluates falsy the
element is removed from its parent, and the removal is irreversible
within the pass (no directive ever re-attaches an element); however the
remaining directives on that element still execute, operating on the
detached element. -/
theorem spec_C5 (s : PassState) (rest : List (String × AttrV)) (raw : String) (e : Expr)
    (hfalsy : truthy (AttributeProcessor.evaluateExpression e s.ctx s.elem.self) = false) :
    processAttributes s (("x-if", ⟨raw, e⟩) :: rest) =
      processAttributes { s with elem := { s.elem with attached := false } } rest ∧
    (∀ (s2 : PassState) (attrs : List (String × AttrV)), s2.elem.attached = false →
      (processAttributes s2 attrs).elem.attached = false) := by
  constructor
  · rw [show processAttributes s (("x-if", ⟨raw, e⟩) :: rest) =
        processAttributes
          (if !truthy (AttributeProcessor.evaluateExpression e s.ctx s.elem.self) then
            { s with elem := { s.elem with attached := false } }
          else s) rest from rfl]
    rw [hfalsy]
    simp
  · intro s2 attrs
    induction attrs generalizing s2 with
    | nil => intro h; exact h
    | cons a t ih =>
      intro h
      show (processAttributes (processAttribute s2 a.1 a.2) t).elem.attached = false
      exact ih _ (processAttribute_attached_false s2 a.1 a.2 h)

/-- Witness for the amended C5 at a concrete falsy `x-if`. -/
theorem spec_C5_witness :
    truthy (AttributeProcessor.evaluateExpression (Expr.lit (Value.bool false)) []
      (Value.elem 0)) = false ∧
    processAttributes ⟨⟨"div", Value.elem 0, true, false, "", "", "", "", [], []⟩, []⟩
        [("x-if", ⟨"false", Expr.lit (Value.bool false)⟩),
         ("x-text", ⟨"msg", Expr.lit (Value.str "after")⟩)] =
      processAttributes
        ⟨⟨"div", Value.elem 0, false, false, "", "", "", "", [], []⟩, []⟩
        [("x-text", ⟨"msg", Expr.lit (Value.str "after")⟩)] := by
  refine ⟨rfl, ?_⟩
  exact (spec_C5 ⟨⟨"div", Value.elem 0, true, false, "", "", "", "", [], []⟩, []⟩
    [("x-text", ⟨"msg", Expr.lit (Value.str "after")⟩)] "false"
    (Expr.lit (Value.bool false)) rfl).1

/-! ### Claim C6 -/

/-- Claim C6 (evaluator error containment): whenever raw evaluation of
an expression throws (malformed source, unbound identifier, member
access on nullish), `ContextEvaluator.evaluate` yields `null` instead of
propagating, and a successful evaluation passes its value through;
likewise the event-handler (statement) form swallows a throwing
statement — it logs, skips the re-render, and leaves the scope copy
untouched — while a successful statement runs and re-renders exactly
once. -/
theorem spec_C6 (e : Expr) (ctx : Ctx) (el : Option Value) (stmt : Stmt)
    (ctx2 : Ctx) (el2 ev : Value) :
    (∀ msg, evalExpr e (ContextEvaluator.fullContextOf ctx el) = Except.error msg →
      ContextEvaluator.evaluate e ctx el = Value.null) ∧
    (∀ v, evalExpr e (ContextEvaluator.fullContextOf ctx el) = Except.ok v →
      ContextEvaluator.evaluate e ctx el = v) ∧
    (∀ msg, evalStmt stmt (ContextEvaluator.handlerScope ctx2 el2 ev) = Except.error msg →
      ContextEvaluator.createEventHandler stmt ctx2 el2 ev =
        { scope := ContextEvaluator.handlerScope ctx2 el2 ev,
          rendered := false, logged := true }) ∧
    (∀ scope2, evalStmt stmt (ContextEvaluator.handlerScope ctx2 el2 ev) = Except.ok scope2 →
      ContextEvaluator.createEventHandler stmt ctx2 el2 ev =
        { scope := scope2, rendered := true, logged := false }) := by
  refine ⟨?_, ?_, ?_, ?_⟩
  · intro msg h
    unfold ContextEvaluator.evaluate
    rw [h]
  · intro v h
    unfold ContextEvaluator.evaluate
    rw [h]
  · intro msg h
    unfold ContextEvaluator.createEventHandler
    rw [h]
  · intro scope2 h
    unfold ContextEvaluator.createEventHandler
    rw [h]

/-- Witness for C6: an unbound identifier yields `null` from `evaluate`,
and a malformed statement is swallowed by the handler form. -/
theorem spec_C6_witness :
    evalExpr (Expr.ident "missing") (ContextEvaluator.fullContextOf [] none) =
      Except.error "ReferenceError: missing is not defined" ∧
    ContextEvaluator.evaluate (Expr.ident "missing") [] none = Value.null ∧
    evalStmt (Stmt.bad "oops") (ContextEvaluator.handlerScope [] (Value.elem 0) Value.null) =
      Except.error "SyntaxError: oops" ∧
    ContextEvaluator.createEventHandler (Stmt.bad "oops") [] (Value.elem 0) Value.null =
      { scope := ContextEvaluator.handlerScope [] (Value.elem 0) Value.null,
        rendered := false, logged := true } := by
  refine ⟨rfl, ?_, rfl, ?_⟩
  · exact (spec_C6 (Expr.ident "missing") [] none (Stmt.bad "oops") [] (Value.elem 0)
      Value.null).1 "ReferenceError: missing is not defined" rfl
  · exact (spec_C6 (Expr.ident "missing") [] none (Stmt.bad "oops") [] (Value.elem 0)
      Value.null).2.2.1 "SyntaxError: oops" rfl

/-! ### Claim C7 -/

theorem ctxGet_setAssoc_self (fields : List (String × Value)) (k : String) (v : Value) :
    ctxGet (setAssoc fields k v) k = v := by
  induction fields with
  | nil => simp [setAssoc, ctxGet, List.find?_cons]
  | cons p rest ih =>
    obtain ⟨k', v'⟩ := p
    cases h : (k' == k) with
    | true =>
      simp only [setAssoc, h, if_true]
      simp [ctxGet, List.find?_cons]
    | false =>
      simp only [setAssoc, h, Bool.false_eq_true, if_false]
      show ctxGet ((k', v') :: setAssoc rest k v) k = v
      unfold ctxGet at ih ⊢
      rw [List.find?_cons]
      simp only [h]
      exact ih

theorem pathOkay_nil : ∀ parts : List String, pathOkay [] parts = true
  | [] => rfl
  | [_] => rfl
  | _ :: _ :: _ => rfl

theorem splitOnDotChars_ne_nil : ∀ l : List Char, splitOnDotChars l ≠ []
  | [] => by simp [splitOnDotChars]
  | c :: rest => by
    have := splitOnDotChars_ne_nil rest
    unfold splitOnDotChars
    cases h : splitOnDotChars rest with
    | nil => exact absurd h this
    | cons g gs => cases hc : (c == '.') <;> simp [hc]

/-- A permitted path walk updates successfully and the written value is
read back by the dotted-path reduce. -/
theorem updateGo_resolve (v : Value) : ∀ (parts : List String) (fields : List (String × Value)),
    parts ≠ [] → pathOkay fields parts = true →
    ∃ fields2, AttributeProcessor.updateGo parts fields v = Except.ok fields2 ∧
      parts.foldl TemplateRenderer.resolveStep (Value.obj fields2) = v := by
  intro parts
  induction parts with
  | nil => intro fields hne _; exact absurd rfl hne
  | cons p rest ih =>
    intro fields _ hok
    cases rest with
    | nil =>
      refine ⟨setAssoc fields p v, rfl, ?_⟩
      show TemplateRenderer.resolveStep (Value.obj (setAssoc fields p v)) p = v
      show ctxGet (setAssoc fields p v) p = v
      exact ctxGet_setAssoc_self fields p v
    | cons q rest2 =>
      cases hcur : ctxGet fields p
      case obj cf =>
        have hok2 : pathOkay cf (q :: rest2) = true := by
          unfold pathOkay at hok
          rw [hcur] at hok
          exact hok
        obtain ⟨cf2, hu, hr⟩ := ih cf (by simp) hok2
        refine ⟨setAssoc fields p (Value.obj cf2), ?_, ?_⟩
        · unfold AttributeProcessor.updateGo
          rw [hcur]
          simp [hu]
        · show List.foldl _
            (TemplateRenderer.resolveStep (Value.obj (setAssoc fields p (Value.obj cf2))) p)
            (q :: rest2) = v
          rw [show TemplateRenderer.resolveStep
              (Value.obj (setAssoc fields p (Value.obj cf2))) p = Value.obj cf2 from
            ctxGet_setAssoc_self fields p (Value.obj cf2)]
          exact hr
      all_goals (
        obtain ⟨cf2, hu, hr⟩ := ih [] (by simp) (pathOkay_nil (q :: rest2));
        have hfalsy : truthy (ctxGet fields p) = false := by
          unfold pathOkay at hok
          rw [hcur] at hok
          rw [hcur]
          simp [truthy] at hok ⊢
          try exact hok
        exact ⟨setAssoc fields p (Value.obj cf2), by
            unfold AttributeProcessor.updateGo
            rw [hcur] at hfalsy ⊢
            simp [hfalsy, hu],
          by
            show List.foldl _
              (TemplateRenderer.resolveStep (Value.obj (setAssoc fields p (Value.obj cf2))) p)
              (q :: rest2) = v
            rw [show TemplateRenderer.resolveStep
                (Value.obj (setAssoc fields p (Value.obj cf2))) p = Value.obj cf2 from
              ctxGet_setAssoc_self fields p (Value.obj cf2)]
            exact hr⟩)

/-- Claim C7 (`x-model` two-way binding): initialization sets the
element's value to the string the bound dotted path currently resolves
to; a value-change event writes the new value back into the context at
that dotted path — creating intermediate mapping levels for missing or
falsy segments, as licensed by `pathOkay` — after which the path
resolves to the new value, and the handler triggers exactly one
re-render. -/
theorem spec_C7 (ctx : Ctx) (el : Value) (h : String) (t : List String) (s : String)
    (st : ModelState) (path : String) (newVal : String) :
    (evalExpr (dottedExpr h t) (("$el", el) :: ctx) = Except.ok (Value.str s) →
      processModelAttributeInit (dottedExpr h t) ctx el = s) ∧
    (pathOkay st.ctx ((splitOnDotChars path.data).map String.mk) = true →
      path.data ≠ ['.'] →
      ∃ st2, modelChangeHandler path newVal st = Except.ok st2 ∧
        st2.renders = st.renders + 1 ∧
        TemplateRenderer.resolveValue st2.ctx path.data = Value.str newVal) := by
  constructor
  · intro hev
    unfold processModelAttributeInit AttributeProcessor.evaluateExpression
    rw [hev]
    by_cases hs : s = ""
    · subst hs; simp [truthy]
    · simp [truthy, hs, jsToString]
  · intro hok hdot
    have hne : (splitOnDotChars path.data).map String.mk ≠ [] := by
      simp [splitOnDotChars_ne_nil path.data]
    obtain ⟨f2, hu, hr⟩ := updateGo_resolve (Value.str newVal)
      ((splitOnDotChars path.data).map String.mk) st.ctx hne hok
    refine ⟨⟨f2, st.renders + 1⟩, ?_, rfl, ?_⟩
    · unfold modelChangeHandler AttributeProcessor.updateContext
      rw [hu]
    · unfold TemplateRenderer.resolveValue
      rw [show ((path.data == ['.']) = false) from beq_eq_false_iff_ne.mpr hdot]
      simp only [Bool.false_eq_true, if_false]
      rw [List.foldl_map] at hr
      exact hr

/-- Witness for C7: the spec scenario `x-model="user.email"` with
context `{user: {email: 'a@b.com'}}`, plus a change event against an
empty context (all path levels missing, hence freshly created). -/
theorem spec_C7_witness :
    evalExpr (dottedExpr "user" ["email"])
        (("$el", Value.elem 0) :: [("user", Value.obj [("email", Value.str "a@b.com")])]) =
      Except.ok (Value.str "a@b.com") ∧
    processModelAttributeInit (dottedExpr "user" ["email"])
        [("user", Value.obj [("email", Value.str "a@b.com")])] (Value.elem 0) = "a@b.com" ∧
    (∃ st2, modelChangeHandler "user.email" "new@b.com"
        ⟨[("user", Value.obj [("email", Value.str "a@b.com")])], 0⟩ = Except.ok st2 ∧
      st2.renders = 0 + 1 ∧
      TemplateRenderer.resolveValue st2.ctx "user.email".data = Value.str "new@b.com") ∧
    (∃ st2, modelChangeHandler "user.email" "x@y.z" ⟨[], 5⟩ = Except.ok st2 ∧
      st2.renders = 5 + 1 ∧
      TemplateRenderer.resolveValue st2.ctx "user.email".data = Value.str "x@y.z") := by
  refine ⟨rfl, ?_, ?_, ?_⟩
  · exact (spec_C7 [("user", Value.obj [("email", Value.str "a@b.com")])] (Value.elem 0)
      "user" ["email"] "a@b.com" ⟨[], 0⟩ "" "").1 rfl
  · exact (spec_C7 [] (Value.elem 0) "user" ["email"] ""
      ⟨[("user", Value.obj [("email", Value.str "a@b.com")])], 0⟩ "user.email" "new@b.com").2
      rfl (by decide)
  · exact (spec_C7 [] (Value.elem 0) "user" ["email"] "" ⟨[], 5⟩ "user.email" "x@y.z").2
      rfl (by decide)

/-! ### Claim C8 -/

theorem getAttr_setAttribute_self (attrs : List (String × String)) (n v : String) :
    AttributeProcessor.getAttr (AttributeProcessor.setAttribute attrs n v) n = some v := by
  induction attrs with
  | nil => simp [AttributeProcessor.setAttribute, setAssoc, AttributeProcessor.getAttr,
      List.find?_cons]
  | cons p rest ih =>
    obtain ⟨k', v'⟩ := p
    cases h : (k' == n) with
    | true =>
      simp only [AttributeProcessor.setAttribute, setAssoc, h, if_true]
      simp [AttributeProcessor.getAttr, List.find?_cons]
    | false =>
      simp only [AttributeProcessor.setAttribute, setAssoc, h, Bool.false_eq_true, if_false]
      unfold AttributeProcessor.getAttr at ih ⊢
      rw [List.find?_cons]
      simp only [h]
      exact ih

theorem getAttr_setAttribute_other (attrs : List (String × String)) (n v n2 : String)
    (h : n2 ≠ n) :
    AttributeProcessor.getAttr (AttributeProcessor.setAttribute attrs n v) n2 =
      AttributeProcessor.getAttr attrs n2 := by
  have hne : (n == n2) = false := by
    simp only [beq_eq_false_iff_ne, ne_eq]
    intro hc; exact h hc.symm
  induction attrs with
  | nil =>
    simp [AttributeProcessor.setAttribute, setAssoc, AttributeProcessor.getAttr,
      List.find?_cons, hne]
  | cons p rest ih =>
    obtain ⟨k', v'⟩ := p
    cases hk : (k' == n) with
    | true =>
      have hkn : k' = n := by simpa using hk
      subst hkn
      simp only [AttributeProcessor.setAttribute, setAssoc, beq_self_eq_true, if_true]
      unfold AttributeProcessor.getAttr
      rw [List.find?_cons, List.find?_cons]
      simp only [hne]
    | false =>
      simp only [AttributeProcessor.setAttribute, setAssoc, hk, Bool.false_eq_true, if_false]
      unfold AttributeProcessor.getAttr at ih ⊢
      rw [List.find?_cons, List.find?_cons]
      cases hk2 : (k' == n2) with
      | true => simp [hk2]
      | false => simp only [hk2]; exact ih

/-- Claim C8 (dynamic attribute binding): for an attribute `:attrName`,
a truthy expression value sets the element's attribute `attrName` to the
stringified result and leaves every other attribute untouched; a falsy
value leaves the attribute list entirely unchanged — in particular an
existing `attrName` value is neither cleared nor modified. -/
theorem spec_C8 (attrs : List (String × String)) (attrName : String) (e : Expr)
    (ctx : Ctx) (el : Value) (v : Value)
    (hv : AttributeProcessor.evaluateExpression e ctx el = v) :
    (truthy v = true →
      AttributeProcessor.getAttr
          (AttributeProcessor.processDynamicAttribute attrs attrName e ctx el) attrName =
        some (jsToString v) ∧
      (∀ n2, n2 ≠ attrName →
        AttributeProcessor.getAttr
            (AttributeProcessor.processDynamicAttribute attrs attrName e ctx el) n2 =
          AttributeProcessor.getAttr attrs n2)) ∧
    (truthy v = false →
      AttributeProcessor.processDynamicAttribute attrs attrName e ctx el = attrs) := by
  constructor
  · intro ht
    have hd : AttributeProcessor.processDynamicAttribute attrs attrName e ctx el =
        AttributeProcessor.setAttribute attrs attrName (jsToString v) := by
      unfold AttributeProcessor.processDynamicAttribute
      rw [hv]
      simp [ht]
    rw [hd]
    exact ⟨getAttr_setAttribute_self attrs attrName (jsToString v),
      fun n2 hn2 => getAttr_setAttribute_other attrs attrName (jsToString v) n2 hn2⟩
  · intro ht
    unfold AttributeProcessor.processDynamicAttribute
    rw [hv]
    simp [ht]

/-- Witness for C8: a truthy expression sets `class`; a falsy one leaves
an existing `class="x"` untouched. -/
theorem spec_C8_witness :
    AttributeProcessor.evaluateExpression (Expr.lit (Value.str "active")) [] (Value.elem 0) =
      Value.str "active" ∧
    AttributeProcessor.getAttr
        (AttributeProcessor.processDynamicAttribute [("class", "x")] "class"
          (Expr.lit (Value.str "active")) [] (Value.elem 0)) "class" = some "active" ∧
    AttributeProcessor.evaluateExpression (Expr.lit (Value.bool false)) [] (Value.elem 0) =
      Value.bool false ∧
    AttributeProcessor.processDynamicAttribute [("class", "x")] "class"
        (Expr.lit (Value.bool false)) [] (Value.elem 0) = [("class", "x")] := by
  refine ⟨rfl, ?_, rfl, ?_⟩
  · exact ((spec_C8 [("class", "x")] "class" (Expr.lit (Value.str "active")) [] (Value.elem 0)
      (Value.str "active") rfl).1 rfl).1
  · exact (spec_C8 [("class", "x")] "class" (Expr.lit (Value.bool false)) [] (Value.elem 0)
      (Value.bool false) rfl).2 rfl

/-! ### Claim C9 -/

/-- Counterexample to claim C9 as stated: in a call to
`ContextEvaluator.evaluate` with no element supplied, the scope carries
no `$el` binding at all, so the acting-element reference is not an
always-available binding — evaluating `$el` throws a `ReferenceError`
that surfaces as `null`. -/
theorem spec_C9_cex :
    scopeBinds (ContextEvaluator.fullContextOf [("name", Value.str "x")] none) "$el" = false ∧
    ContextEvaluator.evaluate (Expr.ident "$el") [("name", Value.str "x")] none =
      Value.null :=
  ⟨rfl, rfl⟩

/-- Claim C9, amended: every context field is addressable by unqualified
name in the evaluation scope; the acting-element binding `$el` is always
available in `AttributeProcessor.evaluateExpression` and in event
handlers (which additionally bind the triggering event as `$event` and
`event`), while `ContextEvaluator.evaluate` binds `$el` only when an
element is supplied. -/
theorem spec_C9 (ctx : Ctx) (el ev : Value) (k : String) :
    scopeBinds (ContextEvaluator.fullContextOf ctx (some el)) "$el" = true ∧
    ctxGet (ContextEvaluator.fullContextOf ctx (some el)) "$el" = el ∧
    AttributeProcessor.evaluateExpression (Expr.ident "$el") ctx el = el ∧
    (k ≠ "$el" → ctxGet (ContextEvaluator.fullContextOf ctx (some el)) k = ctxGet ctx k) ∧
    (scopeBinds ctx k = true → evalExpr (Expr.ident k) ctx = Except.ok (ctxGet ctx k)) ∧
    ctxGet (ContextEvaluator.handlerScope ctx el ev) "$el" = el ∧
    ctxGet (ContextEvaluator.handlerScope ctx el ev) "$event" = ev ∧
    ctxGet (ContextEvaluator.handlerScope ctx el ev) "event" = ev := by
  refine ⟨rfl, rfl, rfl, ?_, ?_, rfl, rfl, rfl⟩
  · intro hk
    have h1 : (("$el" : String) == k) = false := by
      simp only [beq_eq_false_iff_ne, ne_eq]
      intro hc; exact hk hc.symm
    show ctxGet (("$el", el) :: ctx) k = ctxGet ctx k
    unfold ctxGet
    rw [List.find?_cons]
    simp only [h1]
  · intro hb
    unfold evalExpr
    rw [hb]
    simp

/-- Witness for C9 at a concrete context and key. -/
theorem spec_C9_witness :
    ("name" : String) ≠ "$el" ∧
    ctxGet (ContextEvaluator.fullContextOf [("name", Value.str "x")] (some (Value.elem 3)))
      "name" = ctxGet [("name", Value.str "x")] "name" ∧
    scopeBinds [("name", Value.str "x")] "name" = true ∧
    evalExpr (Expr.ident "name") [("name", Value.str "x")] =
      Except.ok (ctxGet [("name", Value.str "x")] "name") ∧
    AttributeProcessor.evaluateExpression (Expr.ident "$el")
      [("name", Value.str "x")] (Value.elem 3) = Value.elem 3 := by
  refine ⟨by decide, ?_, rfl, ?_, ?_⟩
  · exact (spec_C9 [("name", Value.str "x")] (Value.elem 3) Value.null "name").2.2.2.1
      (by decide)
  · exact (spec_C9 [("name", Value.str "x")] (Value.elem 3) Value.null "name").2.2.2.2.1 rfl
  · exact (spec_C9 [("name", Value.str "x")] (Value.elem 3) Value.null "name").2.2.1

/-! ### Claim C10 -/

/-- Counterexample to claim C10 as stated: the attribute string
`\x22abc\x22` begins with a double quote and parses successfully as the
JSON string `"abc"`, yet `safeParse` does not return the parsed value
with a `json` property — the strict-mode property assignment on the
primitive throws, the `catch` runs, and the original string comes back
unchanged. -/
theorem spec_C10_cex :
    jsonParse "\x22abc\x22" = some (Value.str "abc") ∧
    safeParse "\x22abc\x22" = ParseResult.plain "\x22abc\x22" :=
  ⟨rfl, rfl⟩

/-- Claim C10, amended: a JSON-looking attribute string that parses to
an object or an array is returned as the parsed value carrying the extra
`json` property holding the raw string; one that parses to a primitive
(the `\x22…\x22` case) is returned unchanged because the property attach
throws in strict module code; parse failures and non-JSON-looking
strings are returned unchanged. -/
theorem spec_C10 (s : String) :
    (∀ f, startsJsonish s = true → jsonParse s = some (Value.obj f) →
      safeParse s =
        ParseResult.parsedWithJson (Value.obj (setAssoc f "json" (Value.str s))) s) ∧
    (∀ l, startsJsonish s = true → jsonParse s = some (Value.arr l) →
      safeParse s = ParseResult.parsedWithJson (Value.arr l) s) ∧
    (∀ v, startsJsonish s = true → jsonParse s = some v → (∀ f, v ≠ Value.obj f) →
      (∀ l, v ≠ Value.arr l) → safeParse s = ParseResult.plain s) ∧
    (startsJsonish s = true → jsonParse s = none → safeParse s = ParseResult.plain s) ∧
    (startsJsonish s = false → safeParse s = ParseResult.plain s) := by
  refine ⟨?_, ?_, ?_, ?_, ?_⟩
  · intro f h1 h2
    unfold safeParse
    rw [h1, h2]
    simp
  · intro l h1 h2
    unfold safeParse
    rw [h1, h2]
    simp
  · intro v h1 h2 hnobj hnarr
    unfold safeParse
    rw [h1, h2]
    cases v with
    | obj f => exact absurd rfl (hnobj f)
    | arr l => exact absurd rfl (hnarr l)
    | undef => simp
    | null => simp
    | bool b => simp
    | num n => simp
    | numD m e => simp
    | str s2 => simp
    | elem i => simp
  · intro h1 h2
    unfold safeParse
    rw [h1, h2]
    simp
  · intro h1
    unfold safeParse
    rw [h1]
    simp

/-- Witness for C10 on the repository test inputs, including a
fractional JSON number (`[1.5]` parses to the exact decimal
`15 * 10 ^ (-1)` and keeps the `json` property). -/
theorem spec_C10_witness :
    jsonParse "\x7b\x22name\x22: \x22Test\x22\x7d" =
      some (Value.obj [("name", Value.str "Test")]) ∧
    safeParse "\x7b\x22name\x22: \x22Test\x22\x7d" =
      ParseResult.parsedWithJson
        (Value.obj [("name", Value.str "Test"),
          ("json", Value.str "\x7b\x22name\x22: \x22Test\x22\x7d")])
        "\x7b\x22name\x22: \x22Test\x22\x7d" ∧
    safeParse "[\x22t1\x22]" =
      ParseResult.parsedWithJson (Value.arr [Value.str "t1"]) "[\x22t1\x22]" ∧
    jsonParse "[1.5]" = some (Value.arr [Value.numD 15 1]) ∧
    safeParse "[1.5]" =
      ParseResult.parsedWithJson (Value.arr [Value.numD 15 1]) "[1.5]" ∧
    safeParse "\x7b\x22a\x22:2.5\x7d" =
      ParseResult.parsedWithJson
        (Value.obj [("a", Value.numD 25 1), ("json", Value.str "\x7b\x22a\x22:2.5\x7d")])
        "\x7b\x22a\x22:2.5\x7d" ∧
    startsJsonish "simple string" = false ∧
    safeParse "simple string" = ParseResult.plain "simple string" := by
  refine ⟨rfl, ?_, ?_, rfl, ?_, ?_, rfl, ?_⟩
  · exact (spec_C10 "\x7b\x22name\x22: \x22Test\x22\x7d").1 [("name", Value.str "Test")]
      rfl rfl
  · exact (spec_C10 "[\x22t1\x22]").2.1 [Value.str "t1"] rfl rfl
  · exact (spec_C10 "[1.5]").2.1 [Value.numD 15 1] rfl rfl
  · exact (spec_C10 "\x7b\x22a\x22:2.5\x7d").1 [("a", Value.numD 25 1)] rfl rfl
  · exact (spec_C10 "simple string").2.2.2.2 rfl

end Tiny
